import Mathlib

/-!
Verification of the `terrapane/netutil` DataBuffer and VarIntDataBuffer
components (files `src/data_buffer.cpp`, `src/varint_data_buffer.cpp`).

The C++ classes are shallowly embedded: the `DataBuffer` object becomes a
Lean structure holding the storage octets, the tracked sizes and the
ownership flag; every public member function becomes a Lean function that
returns an `Except DBError` result together with the post-call state (on a
thrown exception the post-call state is the object state at the moment of
the throw).  Machine integers are modelled as `Nat` / `Int` with explicit
reductions modulo 2^64 or 256 where the C++ types wrap.  An out-of-range
access to the underlying octet array (undefined behaviour in C++) is
modelled by the distinguished error value `DBError.memoryViolation`.
-/

namespace NetUtil

/-- Error kinds thrown by the buffer code: `outOfBounds` for any
"attempt to read/write beyond" exception, `invalidArgument` for
`SetBuffer` argument validation, `malformedVarint` for a corrupt
variable-width integer, and `memoryViolation` for an out-of-range
access of the raw storage (undefined behaviour in the C++). -/
inductive DBError where
  | outOfBounds
  | invalidArgument
  | malformedVarint
  | memoryViolation
deriving DecidableEq, Repr

instance {ε α : Type} [DecidableEq ε] [DecidableEq α] :
    DecidableEq (Except ε α) := fun x y =>
  match x, y with
  | .ok a, .ok b =>
    if h : a = b then .isTrue (by rw [h]) else .isFalse (by simp [h])
  | .ok _, .error _ => .isFalse (by simp)
  | .error _, .ok _ => .isFalse (by simp)
  | .error e, .error f =>
    if h : e = f then .isTrue (by rw [h]) else .isFalse (by simp [h])

/-- State of a `DataBuffer` object: `storage` is `none` when the C++
`buffer` pointer is null, otherwise the octet contents of the region;
`buffer_size`, `data_length`, `read_position` and `owns_buffer` mirror
the members of the same names. -/
structure DataBuffer where
  storage : Option (List Nat)
  buffer_size : Nat
  data_length : Nat
  read_position : Nat
  owns_buffer : Bool
deriving DecidableEq, Repr

namespace DataBuffer

/-- Octet list of the storage region (empty when the pointer is null). -/
def octets (b : DataBuffer) : List Nat :=
  b.storage.getD []

/-- Read of `buffer[i]`, reduced modulo 256 to reflect `std::uint8_t`
storage.  All uses are guarded by the bounds checks the C++ performs. -/
def octetAt (b : DataBuffer) (i : Nat) : Nat :=
  (b.octets.getD i 0) % 256

/-- Write the octets `bs` into the list `l` starting at index `o`
(the effect of the C++ writing loops / `std::copy_n` into `buffer+o`). -/
def setOctets (l : List Nat) (o : Nat) : List Nat → List Nat
  | [] => l
  | x :: xs => setOctets (l.set o x) (o + 1) xs

/-- Overwrite the storage with `bs` starting at offset `o`. -/
def writeOctets (b : DataBuffer) (o : Nat) (bs : List Nat) : DataBuffer :=
  { b with storage := some (setOctets b.octets o bs) }

/-- State produced by `DataBuffer::FreeBuffer()`: null pointer and all
counters reset. -/
def cleared : DataBuffer :=
  ⟨none, 0, 0, 0, false⟩

/-- Default constructor `DataBuffer::DataBuffer()`. -/
def mkEmpty : DataBuffer := cleared

/-- Model of `DataBuffer::AllocateBuffer(size)`: free any previous buffer,
then allocate `size` octets (a no-op when `size` is zero).  Allocation is
assumed to succeed; the freshly allocated C++ memory is uninitialised, we
represent its indeterminate contents as zeros (no claim depends on them). -/
def AllocateBuffer (b : DataBuffer) (size : Nat) : DataBuffer :=
  let b0 := cleared
  if size = 0 then b0
  else { b0 with storage := some (List.replicate size 0),
                 buffer_size := size, owns_buffer := true }

/-- Sized constructor `DataBuffer::DataBuffer(buffer_size)`. -/
def mkSized (size : Nat) : DataBuffer :=
  AllocateBuffer mkEmpty size

/-- Model of `DataBuffer::SetBuffer(new_buffer, new_buffer_size,
new_data_length)`.  The C++ frees the existing buffer FIRST, then returns
for a null pointer, then validates the arguments (throwing
`invalidArgument` with the old buffer already gone), and finally adopts
the caller's memory.  `region` is the octet content behind the pointer
(`none` for `nullptr`); a well-formed caller passes a region of at least
`new_buffer_size` octets, of which the buffer uses the first
`new_buffer_size`. -/
def SetBuffer (b : DataBuffer) (region : Option (List Nat))
    (new_buffer_size new_data_length : Nat) :
    Except DBError Unit × DataBuffer :=
  let b0 := cleared
  match region with
  | none => (.ok (), b0)
  | some mem =>
    if new_buffer_size = 0 ∨ new_data_length > new_buffer_size then
      (.error .invalidArgument, b0)
    else
      (.ok (), ⟨some (mem.take new_buffer_size), new_buffer_size,
                new_data_length, 0, false⟩)

/-- Model of `DataBuffer::SetDataLength(length)`. -/
def SetDataLength (b : DataBuffer) (length : Nat) :
    Except DBError Unit × DataBuffer :=
  if length > b.buffer_size then (.error .outOfBounds, b)
  else (.ok (), { b with data_length := length, read_position := 0 })

/-- Model of `DataBuffer::SetReadPosition(position)`. -/
def SetReadPosition (b : DataBuffer) (position : Nat) :
    Except DBError Unit × DataBuffer :=
  if position > b.data_length then (.error .outOfBounds, b)
  else (.ok (), { b with read_position := position })

/-- Model of `DataBuffer::AdvanceReadPosition(distance)`. -/
def AdvanceReadPosition (b : DataBuffer) (distance : Nat) :
    Except DBError Unit × DataBuffer :=
  SetReadPosition b (b.read_position + distance)

/-- Model of `DataBuffer::Empty()`. -/
def Empty (b : DataBuffer) : Bool :=
  b.data_length = 0

/-- Big-endian octets of a 16-bit value, the net effect of
`BitUtil::NetworkByteOrder` followed by writing the value's bytes. -/
def beBytes16 (v : Nat) : List Nat :=
  [v / 2 ^ 8 % 256, v % 256]

/-- Big-endian octets of a 32-bit value. -/
def beBytes32 (v : Nat) : List Nat :=
  [v / 2 ^ 24 % 256, v / 2 ^ 16 % 256, v / 2 ^ 8 % 256, v % 256]

/-- Big-endian octets of a 64-bit value. -/
def beBytes64 (v : Nat) : List Nat :=
  [v / 2 ^ 56 % 256, v / 2 ^ 48 % 256, v / 2 ^ 40 % 256, v / 2 ^ 32 % 256,
   v / 2 ^ 24 % 256, v / 2 ^ 16 % 256, v / 2 ^ 8 % 256, v % 256]

/-- Model of `DataBuffer::SetValue(span, offset)`: empty spans succeed as
a no-op; otherwise the write is bounds-checked against the buffer size
before any octet is copied. -/
def SetValueBytes (b : DataBuffer) (value : List Nat) (offset : Nat) :
    Except DBError Unit × DataBuffer :=
  if value = [] then (.ok (), b)
  else if offset + value.length > b.buffer_size then (.error .outOfBounds, b)
  else (.ok (), b.writeOctets offset value)

/-- Model of `DataBuffer::SetValue(std::uint8_t, offset)` (the
`std::int8_t` overload stores the same octet through a cast). -/
def SetValueU8 (b : DataBuffer) (value offset : Nat) :
    Except DBError Unit × DataBuffer :=
  if offset ≥ b.buffer_size then (.error .outOfBounds, b)
  else (.ok (), b.writeOctets offset [value % 256])

/-- Model of `DataBuffer::SetValue(std::uint16_t, offset)`: convert to
network byte order, then write the two octets (the signed overload
delegates here through a cast). -/
def SetValueU16 (b : DataBuffer) (value offset : Nat) :
    Except DBError Unit × DataBuffer :=
  SetValueBytes b (beBytes16 (value % 2 ^ 16)) offset

/-- Model of `DataBuffer::SetValue(std::uint32_t, offset)`. -/
def SetValueU32 (b : DataBuffer) (value offset : Nat) :
    Except DBError Unit × DataBuffer :=
  SetValueBytes b (beBytes32 (value % 2 ^ 32)) offset

/-- Model of `DataBuffer::SetValue(std::uint64_t, offset)`. -/
def SetValueU64 (b : DataBuffer) (value offset : Nat) :
    Except DBError Unit × DataBuffer :=
  SetValueBytes b (beBytes64 (value % 2 ^ 64)) offset

/-- Model of `DataBuffer::GetValue(span, offset)` returning the octets
read instead of filling a caller span. -/
def GetValueBytes (b : DataBuffer) (count offset : Nat) :
    Except DBError (List Nat) :=
  if count = 0 then .ok []
  else if offset + count > b.buffer_size then .error .outOfBounds
  else .ok ((List.range count).map fun j => b.octetAt (offset + j))

/-- Model of `DataBuffer::AppendValue(span)`. -/
def AppendValueBytes (b : DataBuffer) (value : List Nat) :
    Except DBError Unit × DataBuffer :=
  match SetValueBytes b value b.data_length with
  | (.ok _, b') => (.ok (), { b' with data_length := b'.data_length + value.length })
  | (.error e, b') => (.error e, b')

/-- Model of `DataBuffer::AppendValue(std::uint8_t)`. -/
def AppendValueU8 (b : DataBuffer) (value : Nat) :
    Except DBError Unit × DataBuffer :=
  match SetValueU8 b value b.data_length with
  | (.ok _, b') => (.ok (), { b' with data_length := b'.data_length + 1 })
  | (.error e, b') => (.error e, b')

/-- Model of `DataBuffer::AppendValue(std::uint16_t)`. -/
def AppendValueU16 (b : DataBuffer) (value : Nat) :
    Except DBError Unit × DataBuffer :=
  match SetValueU16 b value b.data_length with
  | (.ok _, b') => (.ok (), { b' with data_length := b'.data_length + 2 })
  | (.error e, b') => (.error e, b')

/-- Model of `DataBuffer::AppendValue(std::uint32_t)`. -/
def AppendValueU32 (b : DataBuffer) (value : Nat) :
    Except DBError Unit × DataBuffer :=
  match SetValueU32 b value b.data_length with
  | (.ok _, b') => (.ok (), { b' with data_length := b'.data_length + 4 })
  | (.error e, b') => (.error e, b')

/-- Model of `DataBuffer::AppendValue(std::uint64_t)`. -/
def AppendValueU64 (b : DataBuffer) (value : Nat) :
    Except DBError Unit × DataBuffer :=
  match SetValueU64 b value b.data_length with
  | (.ok _, b') => (.ok (), { b' with data_length := b'.data_length + 8 })
  | (.error e, b') => (.error e, b')

/-- Model of the fixed-width `DataBuffer::ReadValue` family for a read of
`count` octets: the read is checked against the data length first, then
`GetValue` performs its own capacity check, then the cursor advances. -/
def ReadValueBytes (b : DataBuffer) (count : Nat) :
    Except DBError (List Nat) × DataBuffer :=
  if b.read_position + count > b.data_length then (.error .outOfBounds, b)
  else
    match GetValueBytes b count b.read_position with
    | .error e => (.error e, b)
    | .ok bs => (.ok bs, { b with read_position := b.read_position + count })

/-- Model of a mutating write through `DataBuffer::operator[](index)`. -/
def IndexWrite (b : DataBuffer) (index value : Nat) :
    Except DBError Unit × DataBuffer :=
  if index ≥ b.buffer_size then (.error .outOfBounds, b)
  else (.ok (), b.writeOctets index [value % 256])

/-- Model of the copy-assignment `DataBuffer::operator=(const DataBuffer&)`:
reallocate unless this object owns a buffer of identical size, copy the
whole region, and take over both counters.  Allocation is assumed to
succeed. -/
def assignCopy (b other : DataBuffer) : DataBuffer :=
  let b1 := if ¬b.owns_buffer ∨ b.buffer_size ≠ other.buffer_size then
              AllocateBuffer b other.buffer_size
            else b
  let b2 := if other.buffer_size > 0 then { b1 with storage := other.storage }
            else b1
  { b2 with data_length := other.data_length,
            read_position := other.read_position }

/-- Model of the move-assignment `DataBuffer::operator=(DataBuffer&&)`:
free the current buffer, then take the other object's fields when it has
a buffer (the moved-from object's clearing is outside this state). -/
def assignMove (b other : DataBuffer) : DataBuffer :=
  if other.storage = none then cleared else other

/-- Model of `DataBuffer::GetUnreadLength()`. -/
def GetUnreadLength (b : DataBuffer) : Nat :=
  b.data_length - b.read_position

end DataBuffer

namespace VarIntDataBuffer

open DataBuffer

/-- Helper for the most-significant-bit position: halve the value until
it drops below 2, counting the steps; `fuel` bounds the recursion and 64
steps suffice for any 64-bit value. -/
def msbAux : Nat → Nat → Nat
  | 0, _ => 0
  | fuel + 1, v => if 2 ≤ v then msbAux fuel (v / 2) + 1 else 0

/-- Modelled from the spec: the external `BitUtil::FindMSb` primitive on
an unsigned 64-bit value, "most-significant-set-bit position finder:
`HighestSetBit(uint64) -> position` (0 for value 0)"; the position of
the highest set bit, with value 0 mapped to position 0. -/
def FindMSb (value : Nat) : Nat :=
  msbAux 64 value

/-- Modelled from the spec: the external `BitUtil::FindMSb` overload for
a signed 64-bit value.  The spec sizes negative numbers "via their
bit-complement/magnitude", and the repository's own boundary tests
(`test_varint_data_buffer.cpp`, `VarIntSize` test) pin the behaviour:
for `v ≥ 0` the position of the highest set bit of `v`, for `v < 0` the
position of the highest set bit of the bitwise complement `-v - 1`. -/
def FindMSbInt (value : Int) : Nat :=
  if 0 ≤ value then FindMSb value.toNat else FindMSb (-value - 1).toNat

/-- Model of `VarIntDataBuffer::VarUintSize(value)`. -/
def VarUintSize (value : Nat) : Nat :=
  FindMSb value / 7 + 1

/-- Model of `VarIntDataBuffer::VarIntSize(value)`. -/
def VarIntSize (value : Int) : Nat :=
  (FindMSbInt value + 1) / 7 + 1

/-- Octets, in buffer order, produced by the writing loop of the unsigned
`VarIntDataBuffer::SetValue`: the loop walks right-to-left emitting 7-bit
groups of the value and sets the continuation bit on every octet except
the one written last in buffer order. -/
def usept (u : Nat) : Nat → List Nat
  | 0 => []
  | k + 1 => (u / 128 ^ k % 128 + if k = 0 then 0 else 128) :: usept u k

/-- Octets, in buffer order, produced by the writing loop of the signed
`VarIntDataBuffer::SetValue`: identical to the unsigned loop except the
7-bit groups come from arithmetic right shifts of the two's-complement
value (`fdiv` by powers of 128, low bits via `emod`). -/
def ssept (i : Int) : Nat → List Nat
  | 0 => []
  | k + 1 => (((Int.fdiv i (128 ^ k)).emod 128).toNat + if k = 0 then 0 else 128)
               :: ssept i k

/-- Model of `VarIntDataBuffer::SetValue(VarUint64_t, offset)`: compute
the octet count, bounds-check against the buffer size, then write. -/
def SetValueVarUint (b : DataBuffer) (value offset : Nat) :
    Except DBError Nat × DataBuffer :=
  let octets_required := VarUintSize value
  if offset + octets_required > b.buffer_size then (.error .outOfBounds, b)
  else (.ok octets_required,
        b.writeOctets offset (usept value octets_required))

/-- Model of `VarIntDataBuffer::SetValue(VarInt64_t, offset)`. -/
def SetValueVarInt (b : DataBuffer) (value : Int) (offset : Nat) :
    Except DBError Nat × DataBuffer :=
  let octets_required := VarIntSize value
  if offset + octets_required > b.buffer_size then (.error .outOfBounds, b)
  else (.ok octets_required,
        b.writeOctets offset (ssept value octets_required))

/-- Reading loop shared by both `VarIntDataBuffer::GetValue` overloads,
accumulating the 64-bit bit pattern of the result (`value` below; the
signed overload starts it at the pattern of -1 or 0 and the two's
complement left-shift/or steps coincide with this arithmetic on
patterns).  `total` octets have been consumed so far; `fuel` counts the
loop passes left before `++total_octets == 11` fires, so it starts at
10.  Each pass increments the octet count, bounds-checks, reads the
octet, accumulates its low 7 bits, and continues while the octet's most
significant bit is set. -/
def varGo (b : DataBuffer) (offset : Nat) :
    Nat → Nat → Nat → Except DBError (Nat × Nat)
  | _, _, 0 => .error .malformedVarint
  | value, total, fuel + 1 =>
    if offset + (total + 1) > b.buffer_size then .error .outOfBounds
    else
      let octet := b.octetAt (offset + total)
      let value' := (value * 128 + octet % 128) % 2 ^ 64
      if 128 ≤ octet then varGo b offset value' (total + 1) fuel
      else .ok (value', total + 1)

/-- Model of `VarIntDataBuffer::GetValue(VarUint64_t, offset)`: run the
reading loop from a zero accumulator, then apply the canonical-form
check when exactly 10 octets were consumed. -/
def GetValueVarUint (b : DataBuffer) (offset : Nat) :
    Except DBError (Nat × Nat) :=
  match varGo b offset 0 0 10 with
  | .ok (value, total_octets) =>
    if total_octets = 10 ∧ b.octetAt offset ≠ 0x81 then .error .malformedVarint
    else .ok (value, total_octets)
  | .error e => .error e

/-- Two's-complement reading of a 64-bit pattern as `std::int64_t`. -/
def toSigned (p : Nat) : Int :=
  if p < 2 ^ 63 then (p : Int) else (p : Int) - 2 ^ 64

/-- Model of `VarIntDataBuffer::GetValue(VarInt64_t, offset)`: the code
guards only `offset > buffer_size` before reading the sign bit 0x40 of
`buffer[offset]`, so at `offset = buffer_size` it accesses one octet
past the end of the storage (modelled as `memoryViolation`); otherwise
the accumulator starts at the pattern of -1 or 0 according to that bit,
the shared loop runs, and the canonical-form check for 10-octet
encodings accepts only leading octets 0x80 and 0xFF. -/
def GetValueVarInt (b : DataBuffer) (offset : Nat) :
    Except DBError (Int × Nat) :=
  if offset > b.buffer_size then .error .outOfBounds
  else if offset < b.buffer_size then
    let value0 := if b.octetAt offset / 64 % 2 = 1 then 2 ^ 64 - 1 else 0
    match varGo b offset value0 0 10 with
    | .ok (value, total_octets) =>
      if total_octets = 10 ∧ b.octetAt offset ≠ 0x80 ∧ b.octetAt offset ≠ 0xFF
      then .error .malformedVarint
      else .ok (toSigned value, total_octets)
    | .error e => .error e
  else .error .memoryViolation

/-- Model of `VarIntDataBuffer::AppendValue(VarUint64_t)`. -/
def AppendValueVarUint (b : DataBuffer) (value : Nat) :
    Except DBError Nat × DataBuffer :=
  match SetValueVarUint b value b.data_length with
  | (.ok length, b') =>
    (.ok length, { b' with data_length := b'.data_length + length })
  | (.error e, b') => (.error e, b')

/-- Model of `VarIntDataBuffer::AppendValue(VarInt64_t)`. -/
def AppendValueVarInt (b : DataBuffer) (value : Int) :
    Except DBError Nat × DataBuffer :=
  match SetValueVarInt b value b.data_length with
  | (.ok length, b') =>
    (.ok length, { b' with data_length := b'.data_length + length })
  | (.error e, b') => (.error e, b')

/-- Model of `VarIntDataBuffer::ReadValue(VarUint64_t)`: decode at the
read position first (bounded by the buffer size), then reject the read
when it would extend beyond the data length, else advance the cursor. -/
def ReadValueVarUint (b : DataBuffer) :
    Except DBError (Nat × Nat) × DataBuffer :=
  match GetValueVarUint b b.read_position with
  | .error e => (.error e, b)
  | .ok (value, length) =>
    if b.read_position + length > b.data_length then (.error .outOfBounds, b)
    else (.ok (value, length),
          { b with read_position := b.read_position + length })

/-- Model of `VarIntDataBuffer::ReadValue(VarInt64_t)`. -/
def ReadValueVarInt (b : DataBuffer) :
    Except DBError (Int × Nat) × DataBuffer :=
  match GetValueVarInt b b.read_position with
  | .error e => (.error e, b)
  | .ok (value, length) =>
    if b.read_position + length > b.data_length then (.error .outOfBounds, b)
    else (.ok (value, length),
          { b with read_position := b.read_position + length })

end VarIntDataBuffer

open DataBuffer VarIntDataBuffer in
/-- Enumeration of the public state-mutating operations of
`DataBuffer`/`VarIntDataBuffer`.  The `const` accessors (`GetValue`,
queries) do not touch the state and are omitted; the signed fixed-width
`SetValue`/`AppendValue`/`ReadValue` overloads delegate to the unsigned
ones through casts and the float overloads to the equal-width integer
ones, so the unsigned byte/16/32/64 forms cover them; the fixed-width
`ReadValue` family differs across widths only in how the octets are
interpreted, covered by `readBytes`. -/
inductive Op where
  | setBuffer (region : Option (List Nat)) (size dl : Nat)
  | allocate (size : Nat)
  | setDataLength (n : Nat)
  | setReadPosition (p : Nat)
  | advanceReadPosition (d : Nat)
  | setBytes (value : List Nat) (offset : Nat)
  | setU8 (v offset : Nat)
  | setU16 (v offset : Nat)
  | setU32 (v offset : Nat)
  | setU64 (v offset : Nat)
  | appendBytes (value : List Nat)
  | appendU8 (v : Nat)
  | appendU16 (v : Nat)
  | appendU32 (v : Nat)
  | appendU64 (v : Nat)
  | readBytes (count : Nat)
  | indexWrite (i v : Nat)
  | assignCopy (other : DataBuffer)
  | assignMove (other : DataBuffer)
  | setVarUint (u offset : Nat)
  | setVarInt (i : Int) (offset : Nat)
  | appendVarUint (u : Nat)
  | appendVarInt (i : Int)
  | readVarUint
  | readVarInt
deriving DecidableEq, Repr

namespace Op

open DataBuffer VarIntDataBuffer

/-- Effect of one public operation: the call's success or thrown error,
and the object state after the call (for a throw, the state at the
moment of the throw). -/
def step (b : DataBuffer) : Op → Except DBError Unit × DataBuffer
  | .setBuffer region size dl => SetBuffer b region size dl
  | .allocate size => (.ok (), AllocateBuffer b size)
  | .setDataLength n => SetDataLength b n
  | .setReadPosition p => SetReadPosition b p
  | .advanceReadPosition d => AdvanceReadPosition b d
  | .setBytes value offset => SetValueBytes b value offset
  | .setU8 v offset => SetValueU8 b v offset
  | .setU16 v offset => SetValueU16 b v offset
  | .setU32 v offset => SetValueU32 b v offset
  | .setU64 v offset => SetValueU64 b v offset
  | .appendBytes value => AppendValueBytes b value
  | .appendU8 v => AppendValueU8 b v
  | .appendU16 v => AppendValueU16 b v
  | .appendU32 v => AppendValueU32 b v
  | .appendU64 v => AppendValueU64 b v
  | .readBytes count =>
    (let r := ReadValueBytes b count; (r.1.map fun _ => (), r.2))
  | .indexWrite i v => IndexWrite b i v
  | .assignCopy other => (.ok (), DataBuffer.assignCopy b other)
  | .assignMove other => (.ok (), DataBuffer.assignMove b other)
  | .setVarUint u offset =>
    (let r := SetValueVarUint b u offset; (r.1.map fun _ => (), r.2))
  | .setVarInt i offset =>
    (let r := SetValueVarInt b i offset; (r.1.map fun _ => (), r.2))
  | .appendVarUint u =>
    (let r := AppendValueVarUint b u; (r.1.map fun _ => (), r.2))
  | .appendVarInt i =>
    (let r := AppendValueVarInt b i; (r.1.map fun _ => (), r.2))
  | .readVarUint =>
    (let r := ReadValueVarUint b; (r.1.map fun _ => (), r.2))
  | .readVarInt =>
    (let r := ReadValueVarInt b; (r.1.map fun _ => (), r.2))

/-- Run a sequence of public operations, keeping the state each call
leaves behind (also for failing calls). -/
def run (b : DataBuffer) (ops : List Op) : DataBuffer :=
  ops.foldl (fun s op => (step s op).2) b

/-- Recognizer for the rebinding operation, whose failure behaviour is
special. -/
def isSetBuffer : Op → Bool
  | .setBuffer _ _ _ => true
  | _ => false

/-- Recognizer for the varint sequential reads, the only operations that
can also fail from a malformed octet stream (or, for the signed decoder,
from its out-of-range sign-bit access). -/
def isVarRead : Op → Bool
  | .readVarUint => true
  | .readVarInt => true
  | _ => false

end Op

namespace DataBuffer

/-- Bounds invariants of the claim: `data_length ≤ capacity`,
`read_position ≤ data_length`, and a null storage pointer forces all
three counters to zero. -/
def ClaimInv (b : DataBuffer) : Prop :=
  b.data_length ≤ b.buffer_size ∧ b.read_position ≤ b.data_length ∧
  (b.storage = none → b.buffer_size = 0 ∧ b.data_length = 0 ∧ b.read_position = 0)

instance (b : DataBuffer) : Decidable (ClaimInv b) := by
  unfold ClaimInv; infer_instance

/-- Model coherence: the stored octet list has exactly `buffer_size`
elements (the C++ guarantees the pointer addresses that many octets). -/
def Coherent (b : DataBuffer) : Prop :=
  b.octets.length = b.buffer_size

instance (b : DataBuffer) : Decidable (Coherent b) := by
  unfold Coherent; infer_instance

/-- Full state invariant carried through every operation. -/
def Inv (b : DataBuffer) : Prop :=
  ClaimInv b ∧ Coherent b

instance (b : DataBuffer) : Decidable (Inv b) := by
  unfold Inv; infer_instance

end DataBuffer

namespace Op

/-- Precondition on an operation's arguments: a rebinding caller passes
a memory region of at least the declared size, and buffers assigned from
satisfy the invariant themselves. -/
def WFOp : Op → Prop
  | .setBuffer (some mem) size _ => size ≤ mem.length
  | .assignCopy other => other.Inv
  | .assignMove other => other.Inv
  | _ => True

instance (op : Op) : Decidable (WFOp op) := by
  unfold WFOp; cases op with
  | setBuffer region size dl => cases region <;> infer_instance
  | _ => infer_instance

end Op

/-- Predicate stating that the storage of `b` holds exactly the octets
`bs` starting at position `p` (as seen through `octetAt`). -/
def DataBuffer.bytesAt (b : DataBuffer) (p : Nat) (bs : List Nat) : Prop :=
  ∀ j < bs.length, b.octetAt (p + j) = bs.getD j 0

instance (b : DataBuffer) (p : Nat) (bs : List Nat) :
    Decidable (b.bytesAt p bs) := by
  unfold DataBuffer.bytesAt; infer_instance

/-!
Theorems.  First the helper lemmas about the most-significant-bit
primitive, then one theorem per claim (with witnesses where the claim's
theorem carries hypotheses).
-/

namespace VarIntDataBuffer

open DataBuffer

theorem msbAux_eq_log (fuel : Nat) :
    ∀ v : Nat, v < 2 ^ fuel → msbAux fuel v = Nat.log 2 v := by
  induction fuel with
  | zero =>
    intro v hv
    interval_cases v
    simp [msbAux]
  | succ fuel ih =>
    intro v hv
    by_cases h2 : 2 ≤ v
    · have hdiv : v / 2 < 2 ^ fuel := by
        rw [Nat.div_lt_iff_lt_mul (by norm_num)]
        calc v < 2 ^ (fuel + 1) := hv
        _ = 2 ^ fuel * 2 := by ring
      have hlog : Nat.log 2 (v / 2) = Nat.log 2 v - 1 := Nat.log_div_base 2 v
      have hpos : 0 < Nat.log 2 v := Nat.log_pos (by norm_num) h2
      rw [msbAux, if_pos h2, ih (v / 2) hdiv, hlog]
      omega
    · rw [msbAux, if_neg h2]
      have : Nat.log 2 v = 0 := Nat.log_eq_zero_iff.mpr (Or.inl (by omega))
      omega

theorem FindMSb_eq_log (v : Nat) (hv : v < 2 ^ 64) : FindMSb v = Nat.log 2 v :=
  msbAux_eq_log 64 v hv

theorem FindMSb_range (u : Nat) (h1 : 2 ^ 63 ≤ u) (h2 : u < 2 ^ 64) :
    FindMSb u = 63 := by
  rw [FindMSb_eq_log u h2]
  exact Nat.log_eq_of_pow_le_of_lt_pow h1 h2

theorem log_le_63 (u : Nat) (hu : u < 2 ^ 64) : Nat.log 2 u ≤ 63 := by
  rcases Nat.eq_zero_or_pos u with h0 | h0
  · simp [h0]
  · have := Nat.log_lt_of_lt_pow (by omega : u ≠ 0) hu
    omega

theorem VarUintSize_le_ten (u : Nat) (hu : u < 2 ^ 64) : VarUintSize u ≤ 10 := by
  have hlog := log_le_63 u hu
  rw [VarUintSize, FindMSb_eq_log u hu]
  omega

theorem lt_pow_seven_VarUintSize (u : Nat) (hu : u < 2 ^ 64) :
    u < 128 ^ VarUintSize u := by
  have h1 : u < 2 ^ (Nat.log 2 u + 1) := Nat.lt_pow_succ_log_self (by norm_num) u
  have h2 : (128 : Nat) ^ VarUintSize u = 2 ^ (7 * VarUintSize u) := by
    rw [show (128 : Nat) = 2 ^ 7 by norm_num, ← pow_mul]
  rw [h2, VarUintSize, FindMSb_eq_log u hu]
  refine lt_of_lt_of_le h1 (Nat.pow_le_pow_right (by norm_num) ?_)
  omega

theorem VarUintSize_eq_ten_imp (u : Nat) (hu : u < 2 ^ 64)
    (h : VarUintSize u = 10) : 2 ^ 63 ≤ u := by
  rw [VarUintSize, FindMSb_eq_log u hu] at h
  have hlog : 63 ≤ Nat.log 2 u := by omega
  have hne : u ≠ 0 := by
    intro h0
    rw [h0, Nat.log_zero_right] at hlog
    omega
  calc (2 : Nat) ^ 63 ≤ 2 ^ Nat.log 2 u := Nat.pow_le_pow_right (by norm_num) hlog
  _ ≤ u := Nat.pow_log_le_self 2 hne

end VarIntDataBuffer

namespace DataBuffer

theorem setOctets_length (bs : List Nat) :
    ∀ (l : List Nat) (o : Nat), (setOctets l o bs).length = l.length := by
  induction bs with
  | nil => intro l o; rfl
  | cons x xs ih =>
    intro l o
    rw [setOctets, ih]
    exact List.length_set l o x

theorem setOctets_getD_left (bs : List Nat) :
    ∀ (l : List Nat) (o i : Nat), i < o →
      (setOctets l o bs).getD i 0 = l.getD i 0 := by
  induction bs with
  | nil => intro l o i _; rfl
  | cons x xs ih =>
    intro l o i hi
    rw [setOctets, ih (l.set o x) (o + 1) i (by omega)]
    simp [List.getD_eq_getElem?_getD, List.getElem?_set_ne (by omega : o ≠ i)]

theorem setOctets_getD (bs : List Nat) :
    ∀ (l : List Nat) (o j : Nat), j < bs.length → o + bs.length ≤ l.length →
      (setOctets l o bs).getD (o + j) 0 = bs.getD j 0 := by
  induction bs with
  | nil => intro l o j hj _; simp at hj
  | cons x xs ih =>
    intro l o j hj hcap
    rw [setOctets]
    match j with
    | 0 =>
      rw [setOctets_getD_left xs (l.set o x) (o + 1) (o + 0) (by omega)]
      have ho : o < l.length := by simp at hcap; omega
      simp [List.getD_eq_getElem?_getD, List.getElem?_set_eq_of_lt x ho]
    | j + 1 =>
      have h1 : o + (j + 1) = (o + 1) + j := by omega
      have h2 : j < xs.length := by simp at hj; omega
      have h3 : (o + 1) + xs.length ≤ (l.set o x).length := by
        simp [List.length_set] at hcap ⊢; omega
      rw [h1, ih (l.set o x) (o + 1) j h2 h3]
      rfl

theorem writeOctets_octets (b : DataBuffer) (o : Nat) (bs : List Nat) :
    (b.writeOctets o bs).octets = setOctets b.octets o bs := rfl

theorem writeOctets_fields (b : DataBuffer) (o : Nat) (bs : List Nat) :
    (b.writeOctets o bs).buffer_size = b.buffer_size ∧
    (b.writeOctets o bs).data_length = b.data_length ∧
    (b.writeOctets o bs).read_position = b.read_position := ⟨rfl, rfl, rfl⟩

theorem bytesAt_cons (b : DataBuffer) (p x : Nat) (xs : List Nat) :
    b.bytesAt p (x :: xs) ↔ b.octetAt p = x ∧ b.bytesAt (p + 1) xs := by
  constructor
  · intro h
    refine ⟨by simpa using h 0 (by simp), fun j hj => ?_⟩
    have := h (j + 1) (by simp; omega)
    rw [show p + (j + 1) = p + 1 + j by omega] at this
    simpa using this
  · rintro ⟨h1, h2⟩ j hj
    match j with
    | 0 => simpa using h1
    | j + 1 =>
      rw [show p + (j + 1) = p + 1 + j by omega]
      have := h2 j (by simp at hj; omega)
      simpa using this

theorem bytesAt_append (b : DataBuffer) (xs : List Nat) :
    ∀ (p : Nat) (ys : List Nat),
      b.bytesAt p (xs ++ ys) ↔ b.bytesAt p xs ∧ b.bytesAt (p + xs.length) ys := by
  induction xs with
  | nil =>
    intro p ys
    simp only [List.nil_append, List.length_nil, Nat.add_zero]
    constructor
    · intro h; exact ⟨fun j hj => by simp at hj, h⟩
    · intro h; exact h.2
  | cons x xs ih =>
    intro p ys
    rw [List.cons_append, bytesAt_cons, bytesAt_cons, ih (p + 1) ys,
        List.length_cons]
    constructor
    · rintro ⟨h1, h2, h3⟩
      exact ⟨⟨h1, h2⟩, by rw [show p + (xs.length + 1) = p + 1 + xs.length by omega]; exact h3⟩
    · rintro ⟨⟨h1, h2⟩, h3⟩
      exact ⟨h1, h2, by rw [show p + 1 + xs.length = p + (xs.length + 1) by omega]; exact h3⟩

theorem bytesAt_writeOctets (b : DataBuffer) (o : Nat) (bs : List Nat)
    (hcap : o + bs.length ≤ b.octets.length)
    (hel : ∀ x ∈ bs, x < 256) :
    (b.writeOctets o bs).bytesAt o bs := by
  intro j hj
  rw [octetAt, writeOctets_octets, setOctets_getD bs b.octets o j hj hcap]
  have hmem : bs.getD j 0 ∈ bs := by
    rw [List.getD_eq_getElem bs 0 hj]
    exact List.getElem_mem hj
  exact Nat.mod_eq_of_lt (hel _ hmem)

end DataBuffer

namespace VarIntDataBuffer

open DataBuffer

theorem usept_length (u : Nat) : ∀ k, (usept u k).length = k := by
  intro k
  induction k with
  | zero => rfl
  | succ k ih => rw [usept]; simp [ih]

theorem usept_mem_lt (u : Nat) : ∀ k, ∀ x ∈ usept u k, x < 256 := by
  intro k
  induction k with
  | zero => intro x hx; simp [usept] at hx
  | succ k ih =>
    intro x hx
    rw [usept] at hx
    rcases List.mem_cons.mp hx with h | h
    · subst h
      have : u / 128 ^ k % 128 < 128 := Nat.mod_lt _ (by norm_num)
      split <;> omega
    · exact ih x h

theorem accum_step (w u k : Nat) :
    ((w * 128 + u / 128 ^ k % 128) % 2 ^ 64 * 128 ^ k + u % 128 ^ k) % 2 ^ 64
      = (w * 128 ^ (k + 1) + u % 128 ^ (k + 1)) % 2 ^ 64 := by
  have h1 : (w * 128 + u / 128 ^ k % 128) % 2 ^ 64 * 128 ^ k % 2 ^ 64
      = (w * 128 + u / 128 ^ k % 128) * 128 ^ k % 2 ^ 64 := Nat.mod_mul_mod
  have h2 : (w * 128 + u / 128 ^ k % 128) * 128 ^ k + u % 128 ^ k
      = w * 128 ^ (k + 1) + u % 128 ^ (k + 1) := by
    have h3 : u % 128 ^ (k + 1) = u % 128 ^ k + 128 ^ k * (u / 128 ^ k % 128) := by
      rw [pow_succ]
      exact Nat.mod_mul
    rw [h3]; ring
  calc ((w * 128 + u / 128 ^ k % 128) % 2 ^ 64 * 128 ^ k + u % 128 ^ k) % 2 ^ 64
      = ((w * 128 + u / 128 ^ k % 128) % 2 ^ 64 * 128 ^ k % 2 ^ 64
          + u % 128 ^ k % 2 ^ 64) % 2 ^ 64 := by rw [← Nat.add_mod]
  _ = ((w * 128 + u / 128 ^ k % 128) * 128 ^ k % 2 ^ 64
          + u % 128 ^ k % 2 ^ 64) % 2 ^ 64 := by rw [h1]
  _ = ((w * 128 + u / 128 ^ k % 128) * 128 ^ k + u % 128 ^ k) % 2 ^ 64 := by
        rw [← Nat.add_mod]
  _ = (w * 128 ^ (k + 1) + u % 128 ^ (k + 1)) % 2 ^ 64 := by rw [h2]

theorem varGo_consume (b : DataBuffer) (offset u : Nat) :
    ∀ (k w total fuel : Nat), 1 ≤ k → k ≤ fuel →
      b.bytesAt (offset + total) (usept u k) →
      offset + total + k ≤ b.buffer_size →
      varGo b offset w total fuel
        = .ok ((w * 128 ^ k + u % 128 ^ k) % 2 ^ 64, total + k) := by
  intro k
  induction k with
  | zero => intro w total fuel h1; omega
  | succ k ih =>
    intro w total fuel _ hfuel hbytes hcap
    obtain ⟨fuel, rfl⟩ : ∃ f, fuel = f + 1 := ⟨fuel - 1, by omega⟩
    rw [usept] at hbytes
    rw [bytesAt_cons] at hbytes
    obtain ⟨hhead, htail⟩ := hbytes
    rw [varGo, if_neg (show ¬offset + (total + 1) > b.buffer_size by omega)]
    simp only [hhead]
    rcases Nat.eq_zero_or_pos k with rfl | hk
    · simp only [if_true, pow_zero, Nat.div_one, Nat.add_zero]
      rw [if_neg (show ¬128 ≤ u % 128 by omega)]
      have h1 : u % 128 % 128 = u % 128 := by omega
      rw [h1]
      norm_num
    · rw [if_neg (show ¬k = 0 by omega)]
      rw [if_pos (show 128 ≤ u / 128 ^ k % 128 + 128 by omega)]
      have hmod : (u / 128 ^ k % 128 + 128) % 128 = u / 128 ^ k % 128 := by
        omega
      rw [hmod]
      have hrec := ih ((w * 128 + u / 128 ^ k % 128) % 2 ^ 64) (total + 1) fuel
        hk (by omega)
        (by rw [show offset + (total + 1) = offset + total + 1 by omega]; exact htail)
        (by omega)
      rw [hrec, accum_step]
      have h2 : total + 1 + k = total + (k + 1) := by omega
      rw [h2]

theorem mul_sub_mod' (M A t : Nat) (hM : 0 < M) (ht1 : 1 ≤ t) (htM : t ≤ M)
    (hA : 1 ≤ A) : (M * A - t) % M = M - t := by
  obtain ⟨a, rfl⟩ : ∃ a, A = a + 1 := ⟨A - 1, by omega⟩
  have h1 : M * (a + 1) = M * a + M := by ring
  have h2 : M * (a + 1) - t = M * a + (M - t) := by omega
  rw [h2, Nat.mul_add_mod]
  exact Nat.mod_eq_of_lt (by omega)

theorem mul_sub_div' (M A t : Nat) (hM : 0 < M) (ht1 : 1 ≤ t) (htM : t ≤ M)
    (hA : 1 ≤ A) : (M * A - t) / M = A - 1 := by
  obtain ⟨a, rfl⟩ : ∃ a, A = a + 1 := ⟨A - 1, by omega⟩
  have h1 : M * (a + 1) = M * a + M := by ring
  have h2 : M * (a + 1) - t = M * a + (M - t) := by omega
  rw [h2, Nat.mul_add_div hM, Nat.div_eq_of_lt (by omega)]
  omega

theorem fdiv_cast (m D : Nat) : Int.fdiv (m : Int) (D : Int) = ((m / D : Nat) : Int) := by
  rw [Int.fdiv_eq_ediv _ (by positivity)]
  push_cast
  rfl

theorem digit_nonneg (i : Int) (h : 0 ≤ i) (k : Nat) :
    ((Int.fdiv i (128 ^ k)).emod 128).toNat = i.toNat / 128 ^ k % 128 := by
  obtain ⟨m, rfl⟩ : ∃ m : Nat, i = m := ⟨i.toNat, (Int.toNat_of_nonneg h).symm⟩
  have hcast : ((128 : Int)) ^ k = ((128 ^ k : Nat) : Int) := by push_cast; rfl
  rw [hcast, fdiv_cast m (128 ^ k)]
  have hmn : (m : Int).toNat = m := rfl
  rw [hmn]
  generalize m / 128 ^ k = x
  show ((x : Int) % 128).toNat = x % 128
  omega

theorem digit_neg (i : Int) (hneg : i < 0) (hlo : -(2 : Int) ^ 63 ≤ i)
    (k : Nat) (hk : k ≤ 9) :
    ((Int.fdiv i (128 ^ k)).emod 128).toNat = (i + 2 ^ 70).toNat / 128 ^ k % 128 := by
  have hN : (0 : Int) ≤ i + 2 ^ 70 := by omega
  have hsplit : ((2 : Int) ^ 70) = 2 ^ (70 - 7 * k) * 128 ^ k := by
    rw [show ((128 : Int)) = 2 ^ 7 by norm_num, ← pow_mul, ← pow_add]
    congr 1
    omega
  have h1 : Int.fdiv (i + 2 ^ 70) (128 ^ k)
      = Int.fdiv i (128 ^ k) + 2 ^ (70 - 7 * k) := by
    rw [Int.fdiv_eq_ediv _ (by positivity), Int.fdiv_eq_ediv _ (by positivity),
        hsplit]
    exact Int.add_mul_ediv_right i _ (by positivity)
  have h2 : (Int.fdiv i (128 ^ k) + 2 ^ (70 - 7 * k)).emod 128
      = (Int.fdiv i (128 ^ k)).emod 128 := by
    have he : ((2 : Int)) ^ (70 - 7 * k) = 128 * 2 ^ (63 - 7 * k) := by
      rw [show ((128 : Int)) = 2 ^ 7 by norm_num, ← pow_add]
      congr 1
      omega
    rw [he]
    exact Int.add_mul_emod_self_left (Int.fdiv i (128 ^ k)) 128 (2 ^ (63 - 7 * k))
  have h3 := digit_nonneg (i + 2 ^ 70) hN k
  rw [h1, h2] at h3
  exact h3

theorem varGo_pad (b : DataBuffer) (offset : Nat) :
    ∀ (m total fuel : Nat), m < fuel →
      b.bytesAt (offset + total) (List.replicate m 0x80) →
      offset + total + m ≤ b.buffer_size →
      varGo b offset 0 total fuel = varGo b offset 0 (total + m) (fuel - m) := by
  intro m
  induction m with
  | zero => intro total fuel _ _ _; rfl
  | succ m ih =>
    intro total fuel hfuel hbytes hcap
    obtain ⟨fuel, rfl⟩ : ∃ f, fuel = f + 1 := ⟨fuel - 1, by omega⟩
    rw [List.replicate_succ, bytesAt_cons] at hbytes
    obtain ⟨hhead, htail⟩ := hbytes
    rw [varGo, if_neg (show ¬offset + (total + 1) > b.buffer_size by omega)]
    simp only [hhead]
    rw [if_pos (by norm_num)]
    have h0 : (0 * 128 + 128 % 128) % 2 ^ 64 = 0 := by norm_num
    rw [h0]
    have := ih (total + 1) fuel (by omega)
      (by rw [show offset + (total + 1) = offset + total + 1 by omega]; exact htail)
      (by omega)
    rw [this]
    have h1 : total + 1 + m = total + (m + 1) := by omega
    have h2 : fuel - m = fuel + 1 - (m + 1) := by omega
    rw [h1, h2]

theorem varGo_cases (b : DataBuffer) (offset : Nat) :
    ∀ (fuel total w : Nat), offset + total + fuel ≤ b.buffer_size →
      ((∀ j < fuel, 128 ≤ b.octetAt (offset + total + j)) ∧
        varGo b offset w total fuel = .error .malformedVarint) ∨
      (∃ j < fuel, (∀ i < j, 128 ≤ b.octetAt (offset + total + i)) ∧
        b.octetAt (offset + total + j) < 128 ∧
        ∃ v, varGo b offset w total fuel = .ok (v, total + j + 1)) := by
  intro fuel
  induction fuel with
  | zero =>
    intro total w _
    exact Or.inl ⟨fun j hj => absurd hj (by omega), rfl⟩
  | succ fuel ih =>
    intro total w hcap
    rw [varGo, if_neg (show ¬offset + (total + 1) > b.buffer_size by omega)]
    by_cases hoct : 128 ≤ b.octetAt (offset + total)
    · rw [if_pos hoct]
      rcases ih (total + 1) ((w * 128 + b.octetAt (offset + total) % 128) % 2 ^ 64)
        (by omega) with ⟨hall, heq⟩ | ⟨j, hj, hall, hstop, v, heq⟩
      · refine Or.inl ⟨fun j hj => ?_, heq⟩
        match j with
        | 0 => simpa using hoct
        | j + 1 =>
          have := hall j (by omega)
          rw [show offset + (total + 1) + j = offset + total + (j + 1) by omega] at this
          exact this
      · refine Or.inr ⟨j + 1, by omega, fun i hi => ?_, ?_, v, ?_⟩
        · match i with
          | 0 => simpa using hoct
          | i + 1 =>
            have := hall i (by omega)
            rw [show offset + (total + 1) + i = offset + total + (i + 1) by omega] at this
            exact this
        · have := hstop
          rw [show offset + (total + 1) + j = offset + total + (j + 1) by omega] at this
          exact this
        · rw [heq]
          have : total + 1 + j + 1 = total + (j + 1) + 1 := by omega
          rw [this]
    · rw [if_neg hoct]
      exact Or.inr ⟨0, by omega, fun i hi => absurd hi (by omega),
        by simpa using by omega, _, rfl⟩

theorem ssept_eq_usept_nonneg (i : Int) (h : 0 ≤ i) :
    ∀ k, ssept i k = usept i.toNat k := by
  intro k
  induction k with
  | zero => rfl
  | succ k ih => rw [ssept, usept, ih, digit_nonneg i h k]

theorem ssept_eq_usept_neg (i : Int) (hneg : i < 0) (hlo : -(2 : Int) ^ 63 ≤ i) :
    ∀ k, k ≤ 10 → ssept i k = usept (i + 2 ^ 70).toNat k := by
  intro k
  induction k with
  | zero => intro _; rfl
  | succ k ih =>
    intro hk
    rw [ssept, usept, ih (by omega), digit_neg i hneg hlo k (by omega)]

theorem log2_lt_pow (x m : Nat) (hm : 0 < m) (hx : x < 2 ^ m) :
    Nat.log 2 x < m := by
  rcases Nat.eq_zero_or_pos x with rfl | hpos
  · simpa using hm
  · exact Nat.log_lt_of_lt_pow (by omega) hx

theorem VarIntSize_pos (i : Int) : 1 ≤ VarIntSize i := Nat.le_add_left 1 _

theorem VarIntSize_le_ten_int (i : Int) (hlo : -(2 : Int) ^ 63 ≤ i)
    (hhi : i < 2 ^ 63) : VarIntSize i ≤ 10 := by
  rw [VarIntSize, FindMSbInt]
  by_cases h : 0 ≤ i
  · rw [if_pos h]
    have hx : i.toNat < 2 ^ 63 := by omega
    have hlog : Nat.log 2 i.toNat < 63 := log2_lt_pow _ 63 (by norm_num) hx
    rw [FindMSb_eq_log _ (by omega)]
    omega
  · rw [if_neg h]
    have hx : (-i - 1).toNat < 2 ^ 63 := by omega
    have hlog : Nat.log 2 (-i - 1).toNat < 63 := log2_lt_pow _ 63 (by norm_num) hx
    rw [FindMSb_eq_log _ (by omega)]
    omega

theorem lt_pow_of_VarIntSize_nonneg (i : Int) (h : 0 ≤ i) (hhi : i < 2 ^ 63) :
    i.toNat < 2 ^ (7 * VarIntSize i - 1) := by
  rw [VarIntSize, FindMSbInt, if_pos h]
  have hx64 : i.toNat < 2 ^ 64 := by omega
  rw [FindMSb_eq_log _ hx64]
  have h1 : i.toNat < 2 ^ (Nat.log 2 i.toNat + 1) :=
    Nat.lt_pow_succ_log_self (by norm_num) i.toNat
  exact lt_of_lt_of_le h1 (Nat.pow_le_pow_right (by norm_num) (by omega))

theorem lt_pow_of_VarIntSize_neg (i : Int) (hneg : i < 0)
    (hlo : -(2 : Int) ^ 63 ≤ i) :
    (-i - 1).toNat + 1 ≤ 2 ^ (7 * VarIntSize i - 1) := by
  rw [VarIntSize, FindMSbInt, if_neg (by omega)]
  have hx64 : (-i - 1).toNat < 2 ^ 64 := by omega
  rw [FindMSb_eq_log _ hx64]
  have h1 : (-i - 1).toNat < 2 ^ (Nat.log 2 (-i - 1).toNat + 1) :=
    Nat.lt_pow_succ_log_self (by norm_num) (-i - 1).toNat
  calc (-i - 1).toNat + 1 ≤ 2 ^ (Nat.log 2 (-i - 1).toNat + 1) := h1
  _ ≤ 2 ^ (7 * ((Nat.log 2 (-i - 1).toNat + 1) / 7 + 1) - 1) :=
      Nat.pow_le_pow_right (by norm_num) (by omega)

theorem pow_seven_eq (m : Nat) : (128 : Nat) ^ m = 2 ^ (7 * m) := by
  rw [show (128 : Nat) = 2 ^ 7 by norm_num, ← pow_mul]

theorem pow64_eq (n : Nat) (hn : 1 ≤ n) :
    (2 : Nat) ^ (7 * n - 1) = 64 * 128 ^ (n - 1) := by
  rw [pow_seven_eq, show (64 : Nat) = 2 ^ 6 by norm_num, ← pow_add]
  congr 1
  omega

theorem GetValueVarInt_of_varGo (b : DataBuffer) (offset : Nat)
    (hoff : offset < b.buffer_size) (v n : Nat)
    (hgo : varGo b offset
      (if b.octetAt offset / 64 % 2 = 1 then 2 ^ 64 - 1 else 0) 0 10
        = .ok (v, n)) :
    GetValueVarInt b offset =
      if n = 10 ∧ b.octetAt offset ≠ 0x80 ∧ b.octetAt offset ≠ 0xFF then
        .error .malformedVarint
      else .ok (toSigned v, n) := by
  simp only [GetValueVarInt]
  rw [if_neg (by omega), if_pos hoff, hgo]

theorem decode_written_nonneg (b : DataBuffer) (l : List Nat) (i : Int)
    (offset : Nat) (hl : b.storage = some l) (hlen : l.length = b.buffer_size)
    (h0 : 0 ≤ i) (hhi : i < 2 ^ 63)
    (hcap : offset + VarIntSize i ≤ b.buffer_size) :
    GetValueVarInt (b.writeOctets offset (usept i.toNat (VarIntSize i)))
      offset = .ok (i, VarIntSize i) := by
  have hbo : b.octets = l := by rw [DataBuffer.octets, hl]; rfl
  have h1n : 1 ≤ VarIntSize i := VarIntSize_pos i
  have h10 : VarIntSize i ≤ 10 := VarIntSize_le_ten_int i (by omega) hhi
  have hEb : i.toNat < 2 ^ (7 * VarIntSize i - 1) :=
    lt_pow_of_VarIntSize_nonneg i h0 hhi
  have hE63 : i.toNat < 2 ^ 63 := by omega
  have hbytes : (b.writeOctets offset (usept i.toNat (VarIntSize i))).bytesAt
      offset (usept i.toNat (VarIntSize i)) := by
    refine bytesAt_writeOctets b offset _ ?_ (usept_mem_lt _ _)
    rw [hbo, usept_length]
    omega
  obtain ⟨m, hm⟩ : ∃ m, VarIntSize i = m + 1 := ⟨VarIntSize i - 1, by omega⟩
  have hhead : (b.writeOctets offset
        (usept i.toNat (VarIntSize i))).octetAt offset
      = i.toNat / 128 ^ m % 128 + (if m = 0 then 0 else 128) := by
    have hb0 := hbytes 0 (by rw [usept_length]; omega)
    rw [Nat.add_zero] at hb0
    rw [hb0, hm, usept, List.getD_cons_zero]
  have hxlt : i.toNat / 128 ^ m < 64 := by
    rw [Nat.div_lt_iff_lt_mul (by positivity)]
    calc i.toNat < 2 ^ (7 * VarIntSize i - 1) := hEb
    _ = 64 * 128 ^ m := by rw [pow64_eq _ h1n, hm]; norm_num
  have hsign : ¬(b.writeOctets offset
      (usept i.toNat (VarIntSize i))).octetAt offset / 64 % 2 = 1 := by
    rw [hhead]
    have hmm : i.toNat / 128 ^ m % 128 = i.toNat / 128 ^ m :=
      Nat.mod_eq_of_lt (by omega)
    rw [hmm]
    by_cases hm0 : m = 0
    · rw [if_pos hm0]; omega
    · rw [if_neg hm0]; omega
  have hw : (if (b.writeOctets offset
        (usept i.toNat (VarIntSize i))).octetAt offset / 64 % 2 = 1 then
      2 ^ 64 - 1 else 0) = 0 := if_neg hsign
  have hgo := varGo_consume (b.writeOctets offset (usept i.toNat (VarIntSize i)))
    offset i.toNat (VarIntSize i) 0 0 10 h1n h10
    (by simpa using hbytes)
    (by show offset + 0 + VarIntSize i ≤ b.buffer_size; omega)
  have hlt128 : i.toNat < 128 ^ VarIntSize i := by
    calc i.toNat < 2 ^ (7 * VarIntSize i - 1) := hEb
    _ ≤ 2 ^ (7 * VarIntSize i) := Nat.pow_le_pow_right (by norm_num) (by omega)
    _ = 128 ^ VarIntSize i := (pow_seven_eq _).symm
  have hval : (0 * 128 ^ VarIntSize i + i.toNat % 128 ^ VarIntSize i) % 2 ^ 64
      = i.toNat := by
    rw [Nat.zero_mul, Nat.zero_add, Nat.mod_eq_of_lt hlt128,
        Nat.mod_eq_of_lt (by omega)]
  have hgo' : varGo (b.writeOctets offset (usept i.toNat (VarIntSize i))) offset
      (if (b.writeOctets offset
          (usept i.toNat (VarIntSize i))).octetAt offset / 64 % 2 = 1 then
        2 ^ 64 - 1 else 0) 0 10
      = .ok (i.toNat, 0 + VarIntSize i) := by
    rw [hw, hgo, hval]
  have hmain := GetValueVarInt_of_varGo
    (b.writeOctets offset (usept i.toNat (VarIntSize i))) offset
    (by show offset < b.buffer_size; omega) i.toNat (0 + VarIntSize i) hgo'
  rw [hmain]
  have hts : toSigned i.toNat = i := by
    rw [toSigned, if_pos hE63, Int.toNat_of_nonneg h0]
  by_cases hn10 : VarIntSize i = 10
  · have hm9 : m = 9 := by omega
    have hdd : i.toNat / 128 ^ m = 0 := by
      rw [hm9]
      exact Nat.div_eq_of_lt (by calc i.toNat < 2 ^ 63 := hE63
                                   _ = 128 ^ 9 := by norm_num)
    have hoct : (b.writeOctets offset
        (usept i.toNat (VarIntSize i))).octetAt offset = 128 := by
      rw [hhead, hdd, if_neg (by omega : ¬m = 0)]
    rw [if_neg (by rintro ⟨-, hne, -⟩; exact hne hoct), hts]
    norm_num
  · rw [if_neg (by rintro ⟨hx, -⟩; omega), hts]
    norm_num

set_option maxHeartbeats 4000000 in
theorem decode_written_neg (b : DataBuffer) (l : List Nat) (i : Int)
    (offset : Nat) (hl : b.storage = some l) (hlen : l.length = b.buffer_size)
    (hneg : i < 0) (hlo : -(2 : Int) ^ 63 ≤ i)
    (hcap : offset + VarIntSize i ≤ b.buffer_size) :
    GetValueVarInt
      (b.writeOctets offset (usept (i + 2 ^ 70).toNat (VarIntSize i)))
      offset = .ok (i, VarIntSize i) := by
  have hbo : b.octets = l := by rw [DataBuffer.octets, hl]; rfl
  have h1n : 1 ≤ VarIntSize i := VarIntSize_pos i
  have h10 : VarIntSize i ≤ 10 := VarIntSize_le_ten_int i hlo (by omega)
  have hCb : (-i - 1).toNat + 1 ≤ 2 ^ (7 * VarIntSize i - 1) :=
    lt_pow_of_VarIntSize_neg i hneg hlo
  have hC63 : (-i - 1).toNat < 2 ^ 63 := by omega
  have hE : (i + 2 ^ 70).toNat = 2 ^ 70 - (-i - 1).toNat - 1 := by omega
  have hbytes : (b.writeOctets offset
      (usept (i + 2 ^ 70).toNat (VarIntSize i))).bytesAt
      offset (usept (i + 2 ^ 70).toNat (VarIntSize i)) := by
    refine bytesAt_writeOctets b offset _ ?_ (usept_mem_lt _ _)
    rw [hbo, usept_length]
    omega
  obtain ⟨m, hm⟩ : ∃ m, VarIntSize i = m + 1 := ⟨VarIntSize i - 1, by omega⟩
  have hm9 : m ≤ 9 := by omega
  have hhead : (b.writeOctets offset
        (usept (i + 2 ^ 70).toNat (VarIntSize i))).octetAt offset
      = (i + 2 ^ 70).toNat / 128 ^ m % 128 + (if m = 0 then 0 else 128) := by
    have hb0 := hbytes 0 (by rw [usept_length]; omega)
    rw [Nat.add_zero] at hb0
    rw [hb0, hm, usept, List.getD_cons_zero]
  have hy : (-i - 1).toNat / 128 ^ m < 64 := by
    rw [Nat.div_lt_iff_lt_mul (by positivity)]
    calc (-i - 1).toNat < 2 ^ (7 * VarIntSize i - 1) := by omega
    _ = 64 * 128 ^ m := by rw [pow64_eq _ h1n, hm]; norm_num
  have h2_70 : (2 : Nat) ^ 70 = 128 ^ m * 2 ^ (70 - 7 * m) := by
    rw [pow_seven_eq, ← pow_add]
    congr 1
    omega
  have h64le : (64 : Nat) ≤ 2 ^ (70 - 7 * m) := by
    calc (64 : Nat) ≤ 2 ^ 7 := by norm_num
    _ ≤ 2 ^ (70 - 7 * m) := Nat.pow_le_pow_right (by norm_num) (by omega)
  have hMpos : 0 < (128 : Nat) ^ m := by positivity
  have hr : (-i - 1).toNat % 128 ^ m < 128 ^ m := Nat.mod_lt _ hMpos
  have hstep : (i + 2 ^ 70).toNat
      = 128 ^ m * (2 ^ (70 - 7 * m) - (-i - 1).toNat / 128 ^ m - 1)
        + (128 ^ m - 1 - (-i - 1).toNat % 128 ^ m) := by
    have hyr := Nat.div_add_mod (-i - 1).toNat (128 ^ m)
    have hmul : 128 ^ m * (2 ^ (70 - 7 * m) - (-i - 1).toNat / 128 ^ m - 1)
        = 128 ^ m * 2 ^ (70 - 7 * m) - 128 ^ m * ((-i - 1).toNat / 128 ^ m)
          - 128 ^ m := by
      rw [Nat.mul_sub, Nat.mul_sub, Nat.mul_one]
    have hbig : 128 ^ m * ((-i - 1).toNat / 128 ^ m + 1)
        ≤ 128 ^ m * 2 ^ (70 - 7 * m) :=
      Nat.mul_le_mul_left _ (by omega)
    have hbig' : 128 ^ m * ((-i - 1).toNat / 128 ^ m + 1)
        = 128 ^ m * ((-i - 1).toNat / 128 ^ m) + 128 ^ m := by ring
    omega
  have hEdiv : (i + 2 ^ 70).toNat / 128 ^ m
      = 2 ^ (70 - 7 * m) - (-i - 1).toNat / 128 ^ m - 1 := by
    rw [hstep]
    rw [Nat.mul_add_div hMpos]
    rw [Nat.div_eq_of_lt
      (show 128 ^ m - 1 - (-i - 1).toNat % 128 ^ m < 128 ^ m by omega)]
    omega
  have he2 : (2 : Nat) ^ (70 - 7 * m) = 128 * 2 ^ (63 - 7 * m) := by
    rw [show (128 : Nat) = 2 ^ 7 by norm_num, ← pow_add]
    congr 1
    omega
  have hxval : (i + 2 ^ 70).toNat / 128 ^ m % 128
      = 128 - (-i - 1).toNat / 128 ^ m - 1 := by
    rw [hEdiv]
    have hrw : 2 ^ (70 - 7 * m) - (-i - 1).toNat / 128 ^ m - 1
        = 128 * 2 ^ (63 - 7 * m) - ((-i - 1).toNat / 128 ^ m + 1) := by
      omega
    have ht1 : 1 ≤ (-i - 1).toNat / 128 ^ m + 1 := Nat.le_add_left 1 _
    have htM : (-i - 1).toNat / 128 ^ m + 1 ≤ 128 := by omega
    rw [hrw, mul_sub_mod' 128 (2 ^ (63 - 7 * m))
      ((-i - 1).toNat / 128 ^ m + 1) (by norm_num) ht1 htM
      Nat.one_le_two_pow]
    omega
  have hsign : (b.writeOctets offset
      (usept (i + 2 ^ 70).toNat (VarIntSize i))).octetAt offset / 64 % 2
      = 1 := by
    rw [hhead, hxval]
    by_cases hm0 : m = 0
    · rw [if_pos hm0]; omega
    · rw [if_neg hm0]; omega
  have hw : (if (b.writeOctets offset
        (usept (i + 2 ^ 70).toNat (VarIntSize i))).octetAt offset / 64 % 2
          = 1 then 2 ^ 64 - 1 else 0) = 2 ^ 64 - 1 := if_pos hsign
  have hgo := varGo_consume
    (b.writeOctets offset (usept (i + 2 ^ 70).toNat (VarIntSize i)))
    offset (i + 2 ^ 70).toNat (VarIntSize i) (2 ^ 64 - 1) 0 10 h1n h10
    (by simpa using hbytes)
    (by show offset + 0 + VarIntSize i ≤ b.buffer_size; omega)
  have hpowle : (2 : Nat) ^ (7 * VarIntSize i - 1) ≤ 128 ^ VarIntSize i := by
    rw [pow_seven_eq]
    exact Nat.pow_le_pow_right (by norm_num) (by omega)
  have h2_70n : (2 : Nat) ^ 70
      = 128 ^ VarIntSize i * 2 ^ (70 - 7 * VarIntSize i) := by
    rw [pow_seven_eq, ← pow_add]
    congr 1
    omega
  have hEmodn : (i + 2 ^ 70).toNat % 128 ^ VarIntSize i
      = 128 ^ VarIntSize i - ((-i - 1).toNat + 1) := by
    have hEeq : (i + 2 ^ 70).toNat
        = 128 ^ VarIntSize i * 2 ^ (70 - 7 * VarIntSize i)
          - ((-i - 1).toNat + 1) := by omega
    rw [hEeq, mul_sub_mod' (128 ^ VarIntSize i)
      (2 ^ (70 - 7 * VarIntSize i)) ((-i - 1).toNat + 1) (by positivity)
      (by omega) (by omega) Nat.one_le_two_pow]
  have hsub : (2 ^ 64 - 1) * 128 ^ VarIntSize i
      = 2 ^ 64 * 128 ^ VarIntSize i - 128 ^ VarIntSize i := by
    rw [Nat.sub_mul, Nat.one_mul]
  have hKle : 128 ^ VarIntSize i ≤ 2 ^ 64 * 128 ^ VarIntSize i :=
    Nat.le_mul_of_pos_left _ (by positivity)
  have hP : ((2 ^ 64 - 1) * 128 ^ VarIntSize i
      + (i + 2 ^ 70).toNat % 128 ^ VarIntSize i) % 2 ^ 64
      = 2 ^ 64 - ((-i - 1).toNat + 1) := by
    rw [hEmodn]
    have hX : (2 ^ 64 - 1) * 128 ^ VarIntSize i
        + (128 ^ VarIntSize i - ((-i - 1).toNat + 1))
        = 2 ^ 64 * 128 ^ VarIntSize i - ((-i - 1).toNat + 1) := by omega
    rw [hX, mul_sub_mod' (2 ^ 64) (128 ^ VarIntSize i) ((-i - 1).toNat + 1)
      (by positivity) (by omega) (by omega)
      (Nat.one_le_pow _ _ (by norm_num))]
  have hgo' : varGo
      (b.writeOctets offset (usept (i + 2 ^ 70).toNat (VarIntSize i))) offset
      (if (b.writeOctets offset
          (usept (i + 2 ^ 70).toNat (VarIntSize i))).octetAt offset / 64 % 2
            = 1 then 2 ^ 64 - 1 else 0) 0 10
      = .ok (2 ^ 64 - ((-i - 1).toNat + 1), 0 + VarIntSize i) := by
    rw [hw, hgo, hP]
  have hmain := GetValueVarInt_of_varGo
    (b.writeOctets offset (usept (i + 2 ^ 70).toNat (VarIntSize i))) offset
    (by show offset < b.buffer_size; omega)
    (2 ^ 64 - ((-i - 1).toNat + 1)) (0 + VarIntSize i) hgo'
  rw [hmain]
  have hts : toSigned (2 ^ 64 - ((-i - 1).toNat + 1)) = i := by
    rw [toSigned, if_neg (by omega)]
    omega
  by_cases hn10 : VarIntSize i = 10
  · have hm9' : m = 9 := by omega
    have hy0 : (-i - 1).toNat / 128 ^ m = 0 := by
      rw [hm9']
      exact Nat.div_eq_of_lt (by calc (-i - 1).toNat < 2 ^ 63 := hC63
                                   _ = 128 ^ 9 := by norm_num)
    have hoct : (b.writeOctets offset
        (usept (i + 2 ^ 70).toNat (VarIntSize i))).octetAt offset = 255 := by
      rw [hhead, hxval, hy0, if_neg (by omega : ¬m = 0)]
    rw [if_neg (by rintro ⟨-, -, hne⟩; exact hne hoct), hts]
    norm_num
  · rw [if_neg (by rintro ⟨hx, -⟩; omega), hts]
    norm_num

end VarIntDataBuffer

namespace DataBuffer

theorem cleared_Inv : cleared.Inv := by decide

theorem writeOctets_Inv (b : DataBuffer) (o : Nat) (bs : List Nat)
    (h : b.Inv) : (b.writeOctets o bs).Inv := by
  obtain ⟨⟨h1, h2, _⟩, hco⟩ := h
  refine ⟨⟨h1, h2, fun hnone => ?_⟩, ?_⟩
  · simp [writeOctets] at hnone
  · show (b.writeOctets o bs).octets.length = (b.writeOctets o bs).buffer_size
    rw [writeOctets_octets, setOctets_length]
    exact hco

theorem SetBuffer_Inv (b : DataBuffer) (region : Option (List Nat))
    (size dl : Nat) (hwf : ∀ mem, region = some mem → size ≤ mem.length) :
    (SetBuffer b region size dl).2.Inv := by
  cases region with
  | none => exact cleared_Inv
  | some mem =>
    simp only [SetBuffer]
    by_cases hc : size = 0 ∨ dl > size
    · rw [if_pos hc]
      exact cleared_Inv
    · rw [if_neg hc]
      refine ⟨⟨show dl ≤ size by omega, show 0 ≤ dl by omega,
        fun hnone => by simp at hnone⟩, ?_⟩
      show (mem.take size).length = size
      rw [List.length_take]
      have := hwf mem rfl
      omega

theorem SetBuffer_error (b : DataBuffer) (region : Option (List Nat))
    (size dl : Nat) (e : DBError)
    (he : (SetBuffer b region size dl).1 = .error e) :
    e = .invalidArgument ∧ (SetBuffer b region size dl).2 = cleared := by
  cases region with
  | none => simp only [SetBuffer] at he; simp at he
  | some mem =>
    simp only [SetBuffer] at he ⊢
    by_cases hc : size = 0 ∨ dl > size
    · rw [if_pos hc] at he ⊢
      exact ⟨(Except.error.inj he).symm, rfl⟩
    · rw [if_neg hc] at he
      simp at he

theorem AllocateBuffer_Inv (b : DataBuffer) (size : Nat) :
    (AllocateBuffer b size).Inv := by
  rw [AllocateBuffer]
  by_cases h : size = 0
  · rw [if_pos h]
    exact cleared_Inv
  · rw [if_neg h]
    refine ⟨⟨show (0 : Nat) ≤ size by omega, show (0 : Nat) ≤ 0 by omega,
      fun hnone => by simp at hnone⟩, ?_⟩
    show (List.replicate size 0).length = size
    simp

theorem SetDataLength_Inv (b : DataBuffer) (n : Nat) (h : b.Inv) :
    (SetDataLength b n).2.Inv := by
  obtain ⟨⟨h1, h2, h3⟩, hco⟩ := h
  rw [SetDataLength]
  by_cases hc : n > b.buffer_size
  · rw [if_pos hc]
    exact ⟨⟨h1, h2, h3⟩, hco⟩
  · rw [if_neg hc]
    refine ⟨⟨show n ≤ b.buffer_size by omega, show 0 ≤ n by omega,
      fun hnone => ?_⟩, hco⟩
    have hnone' : b.storage = none := hnone
    have := h3 hnone'
    refine ⟨this.1, show n = 0 by omega, rfl⟩

theorem SetDataLength_error (b : DataBuffer) (n : Nat) (e : DBError)
    (he : (SetDataLength b n).1 = .error e) :
    e = .outOfBounds ∧ (SetDataLength b n).2 = b := by
  rw [SetDataLength] at he ⊢
  by_cases hc : n > b.buffer_size
  · rw [if_pos hc] at he ⊢
    exact ⟨(Except.error.inj he).symm, rfl⟩
  · rw [if_neg hc] at he
    simp at he

theorem SetReadPosition_Inv (b : DataBuffer) (p : Nat) (h : b.Inv) :
    (SetReadPosition b p).2.Inv := by
  obtain ⟨⟨h1, h2, h3⟩, hco⟩ := h
  rw [SetReadPosition]
  by_cases hc : p > b.data_length
  · rw [if_pos hc]
    exact ⟨⟨h1, h2, h3⟩, hco⟩
  · rw [if_neg hc]
    refine ⟨⟨show b.data_length ≤ b.buffer_size from h1, show p ≤ b.data_length by omega,
      fun hnone => ?_⟩, hco⟩
    have hnone' : b.storage = none := hnone
    have := h3 hnone'
    refine ⟨this.1, this.2.1, show p = 0 by omega⟩

theorem SetReadPosition_error (b : DataBuffer) (p : Nat) (e : DBError)
    (he : (SetReadPosition b p).1 = .error e) :
    e = .outOfBounds ∧ (SetReadPosition b p).2 = b := by
  rw [SetReadPosition] at he ⊢
  by_cases hc : p > b.data_length
  · rw [if_pos hc] at he ⊢
    exact ⟨(Except.error.inj he).symm, rfl⟩
  · rw [if_neg hc] at he
    simp at he

theorem SetValueBytes_Inv (b : DataBuffer) (v : List Nat) (o : Nat)
    (h : b.Inv) : (SetValueBytes b v o).2.Inv := by
  rw [SetValueBytes]
  by_cases h1 : v = []
  · rw [if_pos h1]; exact h
  · rw [if_neg h1]
    by_cases h2 : o + v.length > b.buffer_size
    · rw [if_pos h2]; exact h
    · rw [if_neg h2]; exact writeOctets_Inv b o v h

theorem SetValueBytes_error (b : DataBuffer) (v : List Nat) (o : Nat)
    (e : DBError) (he : (SetValueBytes b v o).1 = .error e) :
    e = .outOfBounds ∧ (SetValueBytes b v o).2 = b := by
  rw [SetValueBytes] at he ⊢
  by_cases h1 : v = []
  · rw [if_pos h1] at he; simp at he
  · rw [if_neg h1] at he ⊢
    by_cases h2 : o + v.length > b.buffer_size
    · rw [if_pos h2] at he ⊢
      exact ⟨(Except.error.inj he).symm, rfl⟩
    · rw [if_neg h2] at he; simp at he

theorem SetValueU8_Inv (b : DataBuffer) (v o : Nat) (h : b.Inv) :
    (SetValueU8 b v o).2.Inv := by
  rw [SetValueU8]
  by_cases hc : o ≥ b.buffer_size
  · rw [if_pos hc]; exact h
  · rw [if_neg hc]; exact writeOctets_Inv b o [v % 256] h

theorem SetValueU8_error (b : DataBuffer) (v o : Nat) (e : DBError)
    (he : (SetValueU8 b v o).1 = .error e) :
    e = .outOfBounds ∧ (SetValueU8 b v o).2 = b := by
  rw [SetValueU8] at he ⊢
  by_cases hc : o ≥ b.buffer_size
  · rw [if_pos hc] at he ⊢
    exact ⟨(Except.error.inj he).symm, rfl⟩
  · rw [if_neg hc] at he; simp at he

theorem SetValueBytes_ok_cases (b : DataBuffer) (v : List Nat) (o : Nat)
    (b2 : DataBuffer) (heq : SetValueBytes b v o = (.ok (), b2)) :
    (v = [] ∧ b2 = b) ∨
    (b2 = b.writeOctets o v ∧ o + v.length ≤ b.buffer_size) := by
  rw [SetValueBytes] at heq
  by_cases h1 : v = []
  · rw [if_pos h1] at heq
    exact Or.inl ⟨h1, (congrArg Prod.snd heq).symm⟩
  · rw [if_neg h1] at heq
    by_cases h2 : o + v.length > b.buffer_size
    · rw [if_pos h2] at heq
      exact absurd (congrArg Prod.fst heq) (by simp)
    · rw [if_neg h2] at heq
      exact Or.inr ⟨(congrArg Prod.snd heq).symm, by omega⟩

theorem SetValueU8_ok_cases (b : DataBuffer) (v o : Nat) (b2 : DataBuffer)
    (heq : SetValueU8 b v o = (.ok (), b2)) :
    b2 = b.writeOctets o [v % 256] ∧ o < b.buffer_size := by
  rw [SetValueU8] at heq
  by_cases hc : o ≥ b.buffer_size
  · rw [if_pos hc] at heq
    exact absurd (congrArg Prod.fst heq) (by simp)
  · rw [if_neg hc] at heq
    exact ⟨(congrArg Prod.snd heq).symm, by omega⟩

theorem append_write_Inv (b : DataBuffer) (v : List Nat) (h : b.Inv)
    (hle : b.data_length + v.length ≤ b.buffer_size) :
    ({ b.writeOctets b.data_length v with
        data_length := b.data_length + v.length } : DataBuffer).Inv := by
  obtain ⟨⟨h1, h2, _⟩, hco⟩ := h
  refine ⟨⟨show b.data_length + v.length ≤ b.buffer_size from hle,
    show b.read_position ≤ b.data_length + v.length by omega,
    fun hnone => by simp [writeOctets] at hnone⟩, ?_⟩
  show (setOctets b.octets b.data_length v).length = b.buffer_size
  rw [setOctets_length]
  exact hco

theorem AppendValueBytes_Inv (b : DataBuffer) (v : List Nat) (h : b.Inv) :
    (AppendValueBytes b v).2.Inv := by
  simp only [AppendValueBytes]
  split
  case _ u b2 heq =>
    rcases SetValueBytes_ok_cases b v b.data_length b2 heq with
      ⟨hv, hb2⟩ | ⟨hb2, hle⟩
    · subst hv
      rw [hb2]
      exact h
    · rw [hb2]
      exact append_write_Inv b v h hle
  case _ e b2 heq =>
    have h1 := SetValueBytes_error b v b.data_length e (by rw [heq])
    have h2 : b2 = b := by
      have hsnd := congrArg Prod.snd heq
      simp only at hsnd
      rw [← hsnd, h1.2]
    show b2.Inv
    rw [h2]
    exact h

theorem AppendValueBytes_error (b : DataBuffer) (v : List Nat) (e : DBError)
    (he : (AppendValueBytes b v).1 = .error e) :
    e = .outOfBounds ∧ (AppendValueBytes b v).2 = b := by
  simp only [AppendValueBytes] at he ⊢
  split at he
  case _ u b2 heq => simp at he
  case _ e2 b2 heq =>
    have h1 := SetValueBytes_error b v b.data_length e2 (by rw [heq])
    have h2 : b2 = b := by
      have hsnd := congrArg Prod.snd heq
      simp only at hsnd
      rw [← hsnd, h1.2]
    have h3 : e2 = e := by simpa using he
    exact ⟨by rw [← h3, h1.1], h2⟩

theorem AppendValueU8_Inv (b : DataBuffer) (v : Nat) (h : b.Inv) :
    (AppendValueU8 b v).2.Inv := by
  simp only [AppendValueU8]
  split
  case _ u b2 heq =>
    obtain ⟨hb2, hlt⟩ := SetValueU8_ok_cases b v b.data_length b2 heq
    rw [hb2]
    exact append_write_Inv b [v % 256] h (by simp; omega)
  case _ e b2 heq =>
    have h1 := SetValueU8_error b v b.data_length e (by rw [heq])
    have h2 : b2 = b := by
      have hsnd := congrArg Prod.snd heq
      simp only at hsnd
      rw [← hsnd, h1.2]
    show b2.Inv
    rw [h2]
    exact h

theorem AppendValueU8_error (b : DataBuffer) (v : Nat) (e : DBError)
    (he : (AppendValueU8 b v).1 = .error e) :
    e = .outOfBounds ∧ (AppendValueU8 b v).2 = b := by
  simp only [AppendValueU8] at he ⊢
  split at he
  case _ u b2 heq => simp at he
  case _ e2 b2 heq =>
    have h1 := SetValueU8_error b v b.data_length e2 (by rw [heq])
    have h2 : b2 = b := by
      have hsnd := congrArg Prod.snd heq
      simp only at hsnd
      rw [← hsnd, h1.2]
    have h3 : e2 = e := by simpa using he
    exact ⟨by rw [← h3, h1.1], h2⟩

theorem AppendValueU16_Inv (b : DataBuffer) (v : Nat) (h : b.Inv) :
    (AppendValueU16 b v).2.Inv := by
  simp only [AppendValueU16]
  split
  case _ u b2 heq =>
    rcases SetValueBytes_ok_cases b (beBytes16 (v % 2 ^ 16)) b.data_length b2
      heq with ⟨hv, hb2⟩ | ⟨hb2, hle⟩
    · simp [beBytes16] at hv
    · rw [hb2]
      exact append_write_Inv b (beBytes16 (v % 2 ^ 16)) h hle
  case _ e b2 heq =>
    rw [SetValueU16] at heq
    have h1 := SetValueBytes_error b (beBytes16 (v % 2 ^ 16)) b.data_length e
      (by rw [heq])
    have h2 : b2 = b := by
      have hsnd := congrArg Prod.snd heq
      simp only at hsnd
      rw [← hsnd, h1.2]
    show b2.Inv
    rw [h2]
    exact h

theorem AppendValueU16_error (b : DataBuffer) (v : Nat) (e : DBError)
    (he : (AppendValueU16 b v).1 = .error e) :
    e = .outOfBounds ∧ (AppendValueU16 b v).2 = b := by
  simp only [AppendValueU16] at he ⊢
  split at he
  case _ u b2 heq => simp at he
  case _ e2 b2 heq =>
    rw [SetValueU16] at heq
    have h1 := SetValueBytes_error b (beBytes16 (v % 2 ^ 16)) b.data_length e2
      (by rw [heq])
    have h2 : b2 = b := by
      have hsnd := congrArg Prod.snd heq
      simp only at hsnd
      rw [← hsnd, h1.2]
    have h3 : e2 = e := by simpa using he
    exact ⟨by rw [← h3, h1.1], h2⟩

theorem AppendValueU32_Inv (b : DataBuffer) (v : Nat) (h : b.Inv) :
    (AppendValueU32 b v).2.Inv := by
  simp only [AppendValueU32]
  split
  case _ u b2 heq =>
    rcases SetValueBytes_ok_cases b (beBytes32 (v % 2 ^ 32)) b.data_length b2
      heq with ⟨hv, hb2⟩ | ⟨hb2, hle⟩
    · simp [beBytes32] at hv
    · rw [hb2]
      exact append_write_Inv b (beBytes32 (v % 2 ^ 32)) h hle
  case _ e b2 heq =>
    rw [SetValueU32] at heq
    have h1 := SetValueBytes_error b (beBytes32 (v % 2 ^ 32)) b.data_length e
      (by rw [heq])
    have h2 : b2 = b := by
      have hsnd := congrArg Prod.snd heq
      simp only at hsnd
      rw [← hsnd, h1.2]
    show b2.Inv
    rw [h2]
    exact h

theorem AppendValueU32_error (b : DataBuffer) (v : Nat) (e : DBError)
    (he : (AppendValueU32 b v).1 = .error e) :
    e = .outOfBounds ∧ (AppendValueU32 b v).2 = b := by
  simp only [AppendValueU32] at he ⊢
  split at he
  case _ u b2 heq => simp at he
  case _ e2 b2 heq =>
    rw [SetValueU32] at heq
    have h1 := SetValueBytes_error b (beBytes32 (v % 2 ^ 32)) b.data_length e2
      (by rw [heq])
    have h2 : b2 = b := by
      have hsnd := congrArg Prod.snd heq
      simp only at hsnd
      rw [← hsnd, h1.2]
    have h3 : e2 = e := by simpa using he
    exact ⟨by rw [← h3, h1.1], h2⟩

theorem AppendValueU64_Inv (b : DataBuffer) (v : Nat) (h : b.Inv) :
    (AppendValueU64 b v).2.Inv := by
  simp only [AppendValueU64]
  split
  case _ u b2 heq =>
    rcases SetValueBytes_ok_cases b (beBytes64 (v % 2 ^ 64)) b.data_length b2
      heq with ⟨hv, hb2⟩ | ⟨hb2, hle⟩
    · simp [beBytes64] at hv
    · rw [hb2]
      exact append_write_Inv b (beBytes64 (v % 2 ^ 64)) h hle
  case _ e b2 heq =>
    rw [SetValueU64] at heq
    have h1 := SetValueBytes_error b (beBytes64 (v % 2 ^ 64)) b.data_length e
      (by rw [heq])
    have h2 : b2 = b := by
      have hsnd := congrArg Prod.snd heq
      simp only at hsnd
      rw [← hsnd, h1.2]
    show b2.Inv
    rw [h2]
    exact h

theorem AppendValueU64_error (b : DataBuffer) (v : Nat) (e : DBError)
    (he : (AppendValueU64 b v).1 = .error e) :
    e = .outOfBounds ∧ (AppendValueU64 b v).2 = b := by
  simp only [AppendValueU64] at he ⊢
  split at he
  case _ u b2 heq => simp at he
  case _ e2 b2 heq =>
    rw [SetValueU64] at heq
    have h1 := SetValueBytes_error b (beBytes64 (v % 2 ^ 64)) b.data_length e2
      (by rw [heq])
    have h2 : b2 = b := by
      have hsnd := congrArg Prod.snd heq
      simp only at hsnd
      rw [← hsnd, h1.2]
    have h3 : e2 = e := by simpa using he
    exact ⟨by rw [← h3, h1.1], h2⟩

theorem ReadValueBytes_Inv (b : DataBuffer) (n : Nat) (h : b.Inv) :
    (ReadValueBytes b n).2.Inv := by
  obtain ⟨⟨h1, h2, h3⟩, hco⟩ := h
  rw [ReadValueBytes]
  by_cases hc : b.read_position + n > b.data_length
  · rw [if_pos hc]
    exact ⟨⟨h1, h2, h3⟩, hco⟩
  · rw [if_neg hc]
    split
    case _ e heq => exact ⟨⟨h1, h2, h3⟩, hco⟩
    case _ bs heq =>
      refine ⟨⟨show b.data_length ≤ b.buffer_size from h1,
        show b.read_position + n ≤ b.data_length by omega,
        fun hnone => ?_⟩, hco⟩
      have hnone' : b.storage = none := hnone
      have := h3 hnone'
      exact ⟨this.1, this.2.1, show b.read_position + n = 0 by omega⟩

theorem ReadValueBytes_error (b : DataBuffer) (n : Nat) (e : DBError)
    (he : (ReadValueBytes b n).1 = .error e) :
    e = .outOfBounds ∧ (ReadValueBytes b n).2 = b := by
  rw [ReadValueBytes] at he ⊢
  by_cases hc : b.read_position + n > b.data_length
  · rw [if_pos hc] at he ⊢
    exact ⟨(Except.error.inj he).symm, rfl⟩
  · rw [if_neg hc] at he ⊢
    rcases heq : GetValueBytes b n b.read_position with e2 | bs
    · refine ⟨?_, rfl⟩
      have he2 : e2 = e := by rw [heq] at he; simpa using he
      rw [GetValueBytes] at heq
      by_cases hz : n = 0
      · rw [if_pos hz] at heq; simp at heq
      · rw [if_neg hz] at heq
        by_cases hb : b.read_position + n > b.buffer_size
        · rw [if_pos hb] at heq
          have h4 : e2 = DBError.outOfBounds := (Except.error.inj heq.symm)
          rw [← he2, h4]
        · rw [if_neg hb] at heq; simp at heq
    · rw [heq] at he; simp at he

theorem assignCopy_Inv (b other : DataBuffer) (h : b.Inv) (ho : other.Inv) :
    (assignCopy b other).Inv := by
  obtain ⟨⟨g1, g2, g3⟩, gco⟩ := ho
  simp only [assignCopy]
  by_cases hsz : other.buffer_size > 0
  · have hsto : ∃ lo, other.storage = some lo := by
      cases hos : other.storage with
      | none => exact absurd (g3 hos).1 (by omega)
      | some lo => exact ⟨lo, rfl⟩
    obtain ⟨lo, hlo⟩ := hsto
    by_cases hre : ¬b.owns_buffer ∨ b.buffer_size ≠ other.buffer_size
    · rw [if_pos hre, if_pos hsz]
      rw [AllocateBuffer, if_neg (by omega)]
      refine ⟨⟨g1, g2, fun hnone => by rw [hlo] at hnone; simp at hnone⟩, ?_⟩
      show other.octets.length = other.buffer_size
      exact gco
    · rw [if_neg hre, if_pos hsz]
      have hbsz : b.buffer_size = other.buffer_size := by
        by_cases ho1 : b.owns_buffer <;> simp [ho1] at hre <;> omega
      refine ⟨⟨show other.data_length ≤ b.buffer_size by omega,
        show other.read_position ≤ other.data_length from g2,
        fun hnone => by rw [hlo] at hnone; simp at hnone⟩, ?_⟩
      show other.octets.length = b.buffer_size
      have hol : other.octets.length = other.buffer_size := gco
      omega
  · by_cases hre : ¬b.owns_buffer ∨ b.buffer_size ≠ other.buffer_size
    · rw [if_pos hre, if_neg hsz]
      rw [AllocateBuffer, if_pos (by omega)]
      exact ⟨⟨show other.data_length ≤ 0 by omega,
        show other.read_position ≤ other.data_length from g2,
        fun _ => ⟨rfl, show other.data_length = 0 by omega,
          show other.read_position = 0 by omega⟩⟩,
        show ([] : List Nat).length = 0 from rfl⟩
    · rw [if_neg hre, if_neg hsz]
      obtain ⟨⟨h1, h2, h3⟩, hco⟩ := h
      have hbsz : b.buffer_size = other.buffer_size := by
        by_cases ho1 : b.owns_buffer <;> simp [ho1] at hre <;> omega
      refine ⟨⟨show other.data_length ≤ b.buffer_size by omega,
        show other.read_position ≤ other.data_length from g2,
        fun hnone => ?_⟩, ?_⟩
      · have hnone' : b.storage = none := hnone
        have h4 := h3 hnone'
        exact ⟨show b.buffer_size = 0 from h4.1,
          show other.data_length = 0 by omega,
          show other.read_position = 0 by omega⟩
      · show b.octets.length = b.buffer_size
        exact hco

theorem assignMove_Inv (b other : DataBuffer) (ho : other.Inv) :
    (assignMove b other).Inv := by
  rw [assignMove]
  by_cases hc : other.storage = none
  · rw [if_pos hc]
    exact cleared_Inv
  · rw [if_neg hc]
    exact ho

end DataBuffer

namespace VarIntDataBuffer

open DataBuffer

theorem ssept_length (i : Int) : ∀ k, (ssept i k).length = k := by
  intro k
  induction k with
  | zero => rfl
  | succ k ih => rw [ssept]; simp [ih]

theorem SetValueVarUint_Inv (b : DataBuffer) (u o : Nat) (h : b.Inv) :
    (SetValueVarUint b u o).2.Inv := by
  simp only [SetValueVarUint]
  by_cases hc : o + VarUintSize u > b.buffer_size
  · rw [if_pos hc]; exact h
  · rw [if_neg hc]; exact writeOctets_Inv b o _ h

theorem SetValueVarUint_error (b : DataBuffer) (u o : Nat) (e : DBError)
    (he : (SetValueVarUint b u o).1 = .error e) :
    e = .outOfBounds ∧ (SetValueVarUint b u o).2 = b := by
  simp only [SetValueVarUint] at he ⊢
  by_cases hc : o + VarUintSize u > b.buffer_size
  · rw [if_pos hc] at he ⊢
    exact ⟨(Except.error.inj he).symm, rfl⟩
  · rw [if_neg hc] at he; simp at he

theorem SetValueVarUint_ok_cases (b : DataBuffer) (u o len : Nat)
    (b2 : DataBuffer) (heq : SetValueVarUint b u o = (.ok len, b2)) :
    len = VarUintSize u ∧ b2 = b.writeOctets o (usept u (VarUintSize u)) ∧
    o + VarUintSize u ≤ b.buffer_size := by
  simp only [SetValueVarUint] at heq
  by_cases hc : o + VarUintSize u > b.buffer_size
  · rw [if_pos hc] at heq
    exact absurd (congrArg Prod.fst heq) (by simp)
  · rw [if_neg hc] at heq
    have h1 := congrArg Prod.fst heq
    have h2 := congrArg Prod.snd heq
    simp only at h1 h2
    exact ⟨(Except.ok.inj h1).symm, h2.symm, by omega⟩

theorem SetValueVarInt_Inv (b : DataBuffer) (i : Int) (o : Nat) (h : b.Inv) :
    (SetValueVarInt b i o).2.Inv := by
  simp only [SetValueVarInt]
  by_cases hc : o + VarIntSize i > b.buffer_size
  · rw [if_pos hc]; exact h
  · rw [if_neg hc]; exact writeOctets_Inv b o _ h

theorem SetValueVarInt_error (b : DataBuffer) (i : Int) (o : Nat) (e : DBError)
    (he : (SetValueVarInt b i o).1 = .error e) :
    e = .outOfBounds ∧ (SetValueVarInt b i o).2 = b := by
  simp only [SetValueVarInt] at he ⊢
  by_cases hc : o + VarIntSize i > b.buffer_size
  · rw [if_pos hc] at he ⊢
    exact ⟨(Except.error.inj he).symm, rfl⟩
  · rw [if_neg hc] at he; simp at he

theorem SetValueVarInt_ok_cases (b : DataBuffer) (i : Int) (o len : Nat)
    (b2 : DataBuffer) (heq : SetValueVarInt b i o = (.ok len, b2)) :
    len = VarIntSize i ∧ b2 = b.writeOctets o (ssept i (VarIntSize i)) ∧
    o + VarIntSize i ≤ b.buffer_size := by
  simp only [SetValueVarInt] at heq
  by_cases hc : o + VarIntSize i > b.buffer_size
  · rw [if_pos hc] at heq
    exact absurd (congrArg Prod.fst heq) (by simp)
  · rw [if_neg hc] at heq
    have h1 := congrArg Prod.fst heq
    have h2 := congrArg Prod.snd heq
    simp only at h1 h2
    exact ⟨(Except.ok.inj h1).symm, h2.symm, by omega⟩

theorem AppendValueVarUint_Inv (b : DataBuffer) (u : Nat) (h : b.Inv) :
    (AppendValueVarUint b u).2.Inv := by
  simp only [AppendValueVarUint]
  split
  case _ len b2 heq =>
    obtain ⟨hlen, hb2, hle⟩ :=
      SetValueVarUint_ok_cases b u b.data_length len b2 heq
    rw [hb2, hlen]
    have := append_write_Inv b (usept u (VarUintSize u)) h
      (by rw [usept_length]; omega)
    rw [usept_length] at this
    exact this
  case _ e b2 heq =>
    have h1 := SetValueVarUint_error b u b.data_length e (by rw [heq])
    have h2 : b2 = b := by
      have hsnd := congrArg Prod.snd heq
      simp only at hsnd
      rw [← hsnd, h1.2]
    show b2.Inv
    rw [h2]
    exact h

theorem AppendValueVarUint_error (b : DataBuffer) (u : Nat) (e : DBError)
    (he : (AppendValueVarUint b u).1 = .error e) :
    e = .outOfBounds ∧ (AppendValueVarUint b u).2 = b := by
  simp only [AppendValueVarUint] at he ⊢
  split at he
  case _ len b2 heq => simp at he
  case _ e2 b2 heq =>
    have h1 := SetValueVarUint_error b u b.data_length e2 (by rw [heq])
    have h2 : b2 = b := by
      have hsnd := congrArg Prod.snd heq
      simp only at hsnd
      rw [← hsnd, h1.2]
    have h3 : e2 = e := by simpa using he
    exact ⟨by rw [← h3, h1.1], h2⟩

theorem AppendValueVarInt_Inv (b : DataBuffer) (i : Int) (h : b.Inv) :
    (AppendValueVarInt b i).2.Inv := by
  simp only [AppendValueVarInt]
  split
  case _ len b2 heq =>
    obtain ⟨hlen, hb2, hle⟩ :=
      SetValueVarInt_ok_cases b i b.data_length len b2 heq
    rw [hb2, hlen]
    have hthis := append_write_Inv b (ssept i (VarIntSize i)) h
      (by rw [ssept_length]; omega)
    rw [ssept_length] at hthis
    exact hthis
  case _ e b2 heq =>
    have h1 := SetValueVarInt_error b i b.data_length e (by rw [heq])
    have h2 : b2 = b := by
      have hsnd := congrArg Prod.snd heq
      simp only at hsnd
      rw [← hsnd, h1.2]
    show b2.Inv
    rw [h2]
    exact h

theorem AppendValueVarInt_error (b : DataBuffer) (i : Int) (e : DBError)
    (he : (AppendValueVarInt b i).1 = .error e) :
    e = .outOfBounds ∧ (AppendValueVarInt b i).2 = b := by
  simp only [AppendValueVarInt] at he ⊢
  split at he
  case _ len b2 heq => simp at he
  case _ e2 b2 heq =>
    have h1 := SetValueVarInt_error b i b.data_length e2 (by rw [heq])
    have h2 : b2 = b := by
      have hsnd := congrArg Prod.snd heq
      simp only at hsnd
      rw [← hsnd, h1.2]
    have h3 : e2 = e := by simpa using he
    exact ⟨by rw [← h3, h1.1], h2⟩

theorem ReadValueVarUint_Inv (b : DataBuffer) (h : b.Inv) :
    (ReadValueVarUint b).2.Inv := by
  obtain ⟨⟨h1, h2, h3⟩, hco⟩ := h
  rw [ReadValueVarUint]
  split
  case _ e heq => exact ⟨⟨h1, h2, h3⟩, hco⟩
  case _ v len heq =>
    by_cases hc : b.read_position + len > b.data_length
    · rw [if_pos hc]
      exact ⟨⟨h1, h2, h3⟩, hco⟩
    · rw [if_neg hc]
      refine ⟨⟨show b.data_length ≤ b.buffer_size from h1,
        show b.read_position + len ≤ b.data_length by omega,
        fun hnone => ?_⟩, hco⟩
      have hnone' : b.storage = none := hnone
      have := h3 hnone'
      exact ⟨this.1, this.2.1, show b.read_position + len = 0 by omega⟩

theorem ReadValueVarUint_error (b : DataBuffer) (e : DBError)
    (he : (ReadValueVarUint b).1 = .error e) :
    (ReadValueVarUint b).2 = b := by
  rw [ReadValueVarUint] at he ⊢
  split
  case _ e2 heq => rfl
  case _ v len heq =>
    by_cases hc : b.read_position + len > b.data_length
    · rw [if_pos hc]
    · rw [heq] at he
      simp [hc] at he

theorem ReadValueVarInt_Inv (b : DataBuffer) (h : b.Inv) :
    (ReadValueVarInt b).2.Inv := by
  obtain ⟨⟨h1, h2, h3⟩, hco⟩ := h
  rw [ReadValueVarInt]
  split
  case _ e heq => exact ⟨⟨h1, h2, h3⟩, hco⟩
  case _ v len heq =>
    by_cases hc : b.read_position + len > b.data_length
    · rw [if_pos hc]
      exact ⟨⟨h1, h2, h3⟩, hco⟩
    · rw [if_neg hc]
      refine ⟨⟨show b.data_length ≤ b.buffer_size from h1,
        show b.read_position + len ≤ b.data_length by omega,
        fun hnone => ?_⟩, hco⟩
      have hnone' : b.storage = none := hnone
      have := h3 hnone'
      exact ⟨this.1, this.2.1, show b.read_position + len = 0 by omega⟩

theorem ReadValueVarInt_error (b : DataBuffer) (e : DBError)
    (he : (ReadValueVarInt b).1 = .error e) :
    (ReadValueVarInt b).2 = b := by
  rw [ReadValueVarInt] at he ⊢
  split
  case _ e2 heq => rfl
  case _ v len heq =>
    by_cases hc : b.read_position + len > b.data_length
    · rw [if_pos hc]
    · rw [heq] at he
      simp [hc] at he

end VarIntDataBuffer

namespace DataBuffer

theorem IndexWrite_Inv (b : DataBuffer) (idx v : Nat) (h : b.Inv) :
    (IndexWrite b idx v).2.Inv := by
  rw [IndexWrite]
  by_cases hc : idx ≥ b.buffer_size
  · rw [if_pos hc]; exact h
  · rw [if_neg hc]; exact writeOctets_Inv b idx [v % 256] h

theorem IndexWrite_error (b : DataBuffer) (idx v : Nat) (e : DBError)
    (he : (IndexWrite b idx v).1 = .error e) :
    e = .outOfBounds ∧ (IndexWrite b idx v).2 = b := by
  rw [IndexWrite] at he ⊢
  by_cases hc : idx ≥ b.buffer_size
  · rw [if_pos hc] at he ⊢
    exact ⟨(Except.error.inj he).symm, rfl⟩
  · rw [if_neg hc] at he; simp at he

end DataBuffer

namespace Op

open DataBuffer VarIntDataBuffer

theorem except_map_error {α β : Type} (r : Except DBError α) (f : α → β)
    (e : DBError) (h : r.map f = .error e) : r = .error e := by
  cases r with
  | error e2 => simpa [Except.map] using h
  | ok x => exact Except.noConfusion h

theorem step_preserves_Inv (b : DataBuffer) (op : Op) (h : b.Inv)
    (hwf : op.WFOp) : (step b op).2.Inv := by
  cases op with
  | setBuffer region size dl =>
      refine SetBuffer_Inv b region size dl ?_
      intro mem hm
      cases region with
      | none => exact absurd hm (by simp)
      | some m =>
          have hmm : m = mem := Option.some.inj hm
          exact hmm ▸ hwf
  | allocate size => exact AllocateBuffer_Inv b size
  | setDataLength n => exact SetDataLength_Inv b n h
  | setReadPosition p => exact SetReadPosition_Inv b p h
  | advanceReadPosition d => exact SetReadPosition_Inv b (b.read_position + d) h
  | setBytes v o => exact SetValueBytes_Inv b v o h
  | setU8 v o => exact SetValueU8_Inv b v o h
  | setU16 v o => exact SetValueBytes_Inv b (beBytes16 (v % 2 ^ 16)) o h
  | setU32 v o => exact SetValueBytes_Inv b (beBytes32 (v % 2 ^ 32)) o h
  | setU64 v o => exact SetValueBytes_Inv b (beBytes64 (v % 2 ^ 64)) o h
  | appendBytes v => exact AppendValueBytes_Inv b v h
  | appendU8 v => exact AppendValueU8_Inv b v h
  | appendU16 v => exact AppendValueU16_Inv b v h
  | appendU32 v => exact AppendValueU32_Inv b v h
  | appendU64 v => exact AppendValueU64_Inv b v h
  | readBytes n => exact ReadValueBytes_Inv b n h
  | indexWrite i v => exact IndexWrite_Inv b i v h
  | assignCopy other => exact assignCopy_Inv b other h hwf
  | assignMove other => exact assignMove_Inv b other hwf
  | setVarUint u o => exact SetValueVarUint_Inv b u o h
  | setVarInt i o => exact SetValueVarInt_Inv b i o h
  | appendVarUint u => exact AppendValueVarUint_Inv b u h
  | appendVarInt i => exact AppendValueVarInt_Inv b i h
  | readVarUint => exact ReadValueVarUint_Inv b h
  | readVarInt => exact ReadValueVarInt_Inv b h

theorem step_error_state (b : DataBuffer) (op : Op) (e : DBError)
    (he : (step b op).1 = .error e) :
    (step b op).2 = b ∨
      (op.isSetBuffer = true ∧ (step b op).2 = DataBuffer.cleared) := by
  cases op with
  | setBuffer region size dl =>
      exact Or.inr ⟨rfl, (SetBuffer_error b region size dl e he).2⟩
  | allocate size => simp [step] at he
  | setDataLength n => exact Or.inl (SetDataLength_error b n e he).2
  | setReadPosition p => exact Or.inl (SetReadPosition_error b p e he).2
  | advanceReadPosition d =>
      exact Or.inl (SetReadPosition_error b (b.read_position + d) e he).2
  | setBytes v o => exact Or.inl (SetValueBytes_error b v o e he).2
  | setU8 v o => exact Or.inl (SetValueU8_error b v o e he).2
  | setU16 v o =>
      exact Or.inl (SetValueBytes_error b (beBytes16 (v % 2 ^ 16)) o e he).2
  | setU32 v o =>
      exact Or.inl (SetValueBytes_error b (beBytes32 (v % 2 ^ 32)) o e he).2
  | setU64 v o =>
      exact Or.inl (SetValueBytes_error b (beBytes64 (v % 2 ^ 64)) o e he).2
  | appendBytes v => exact Or.inl (AppendValueBytes_error b v e he).2
  | appendU8 v => exact Or.inl (AppendValueU8_error b v e he).2
  | appendU16 v => exact Or.inl (AppendValueU16_error b v e he).2
  | appendU32 v => exact Or.inl (AppendValueU32_error b v e he).2
  | appendU64 v => exact Or.inl (AppendValueU64_error b v e he).2
  | readBytes n =>
      exact Or.inl (ReadValueBytes_error b n e
        (except_map_error (ReadValueBytes b n).1 (fun _ => ()) e he)).2
  | indexWrite i v => exact Or.inl (IndexWrite_error b i v e he).2
  | assignCopy other => simp [step] at he
  | assignMove other => simp [step] at he
  | setVarUint u o =>
      exact Or.inl (SetValueVarUint_error b u o e
        (except_map_error (SetValueVarUint b u o).1 (fun _ => ()) e he)).2
  | setVarInt i o =>
      exact Or.inl (SetValueVarInt_error b i o e
        (except_map_error (SetValueVarInt b i o).1 (fun _ => ()) e he)).2
  | appendVarUint u =>
      exact Or.inl (AppendValueVarUint_error b u e
        (except_map_error (AppendValueVarUint b u).1 (fun _ => ()) e he)).2
  | appendVarInt i =>
      exact Or.inl (AppendValueVarInt_error b i e
        (except_map_error (AppendValueVarInt b i).1 (fun _ => ()) e he)).2
  | readVarUint =>
      exact Or.inl (ReadValueVarUint_error b e
        (except_map_error (ReadValueVarUint b).1 (fun _ => ()) e he))
  | readVarInt =>
      exact Or.inl (ReadValueVarInt_error b e
        (except_map_error (ReadValueVarInt b).1 (fun _ => ()) e he))

theorem step_error_kind (b : DataBuffer) (op : Op) (e : DBError)
    (he : (step b op).1 = .error e) (hvr : op.isVarRead = false) :
    e = .outOfBounds ∨ e = .invalidArgument := by
  cases op with
  | setBuffer region size dl =>
      exact Or.inr (SetBuffer_error b region size dl e he).1
  | allocate size => simp [step] at he
  | setDataLength n => exact Or.inl (SetDataLength_error b n e he).1
  | setReadPosition p => exact Or.inl (SetReadPosition_error b p e he).1
  | advanceReadPosition d =>
      exact Or.inl (SetReadPosition_error b (b.read_position + d) e he).1
  | setBytes v o => exact Or.inl (SetValueBytes_error b v o e he).1
  | setU8 v o => exact Or.inl (SetValueU8_error b v o e he).1
  | setU16 v o =>
      exact Or.inl (SetValueBytes_error b (beBytes16 (v % 2 ^ 16)) o e he).1
  | setU32 v o =>
      exact Or.inl (SetValueBytes_error b (beBytes32 (v % 2 ^ 32)) o e he).1
  | setU64 v o =>
      exact Or.inl (SetValueBytes_error b (beBytes64 (v % 2 ^ 64)) o e he).1
  | appendBytes v => exact Or.inl (AppendValueBytes_error b v e he).1
  | appendU8 v => exact Or.inl (AppendValueU8_error b v e he).1
  | appendU16 v => exact Or.inl (AppendValueU16_error b v e he).1
  | appendU32 v => exact Or.inl (AppendValueU32_error b v e he).1
  | appendU64 v => exact Or.inl (AppendValueU64_error b v e he).1
  | readBytes n =>
      exact Or.inl (ReadValueBytes_error b n e
        (except_map_error (ReadValueBytes b n).1 (fun _ => ()) e he)).1
  | indexWrite i v => exact Or.inl (IndexWrite_error b i v e he).1
  | assignCopy other => simp [step] at he
  | assignMove other => simp [step] at he
  | setVarUint u o =>
      exact Or.inl (SetValueVarUint_error b u o e
        (except_map_error (SetValueVarUint b u o).1 (fun _ => ()) e he)).1
  | setVarInt i o =>
      exact Or.inl (SetValueVarInt_error b i o e
        (except_map_error (SetValueVarInt b i o).1 (fun _ => ()) e he)).1
  | appendVarUint u =>
      exact Or.inl (AppendValueVarUint_error b u e
        (except_map_error (AppendValueVarUint b u).1 (fun _ => ()) e he)).1
  | appendVarInt i =>
      exact Or.inl (AppendValueVarInt_error b i e
        (except_map_error (AppendValueVarInt b i).1 (fun _ => ()) e he)).1
  | readVarUint => simp [isVarRead] at hvr
  | readVarInt => simp [isVarRead] at hvr

theorem run_preserves_Inv (b : DataBuffer) (ops : List Op) (h : b.Inv)
    (hwf : ∀ op ∈ ops, op.WFOp) : (run b ops).Inv := by
  induction ops generalizing b with
  | nil => exact h
  | cons op rest ih =>
      simp only [run, List.foldl_cons]
      exact ih (step b op).2 (step_preserves_Inv b op h (hwf op (by simp)))
        (fun o ho => hwf o (List.mem_cons_of_mem op ho))

end Op

namespace Claims

open DataBuffer VarIntDataBuffer

/-- C8: on a buffer of capacity 64 that is initially empty, appending
uint8 0x12, then uint16 0x0003, then uint32 0xDEADBEEF all succeed and
leave the first seven storage octets equal to
`12 00 03 DE AD BE EF` (multi-byte values big-endian), with
`data_length` equal to 7. -/
theorem C8_basic_frame_scenario :
    (AppendValueU8 (mkSized 64) 0x12).1 = .ok () ∧
    (AppendValueU16 (AppendValueU8 (mkSized 64) 0x12).2 0x0003).1 = .ok () ∧
    (AppendValueU32 (AppendValueU16 (AppendValueU8 (mkSized 64) 0x12).2
        0x0003).2 0xDEADBEEF).1 = .ok () ∧
    (AppendValueU32 (AppendValueU16 (AppendValueU8 (mkSized 64) 0x12).2
        0x0003).2 0xDEADBEEF).2.octets.take 7 =
      [0x12, 0x00, 0x03, 0xDE, 0xAD, 0xBE, 0xEF] ∧
    (AppendValueU32 (AppendValueU16 (AppendValueU8 (mkSized 64) 0x12).2
        0x0003).2 0xDEADBEEF).2.data_length = 7 := by
  decide

/-- C9: `SetDataLength(n)` fails with `OutOfBounds` when `n > capacity`,
leaving the state unchanged; otherwise it sets `data_length` to `n` and
resets `read_position` to 0 regardless of the prior cursor value. -/
theorem C9_set_data_length (b : DataBuffer) (n : Nat) :
    (b.buffer_size < n → SetDataLength b n = (.error .outOfBounds, b)) ∧
    (n ≤ b.buffer_size →
      SetDataLength b n =
        (.ok (), { b with data_length := n, read_position := 0 })) := by
  constructor
  · intro h
    rw [SetDataLength, if_pos h]
  · intro h
    rw [SetDataLength, if_neg (by omega)]

theorem C9_set_data_length_witness :
    SetDataLength ⟨some [7, 7, 7], 3, 1, 1, true⟩ 2 =
      (.ok (), ⟨some [7, 7, 7], 3, 2, 0, true⟩) ∧
    SetDataLength ⟨some [7, 7, 7], 3, 1, 1, true⟩ 9 =
      (.error .outOfBounds, ⟨some [7, 7, 7], 3, 1, 1, true⟩) :=
  ⟨(C9_set_data_length ⟨some [7, 7, 7], 3, 1, 1, true⟩ 2).2 (by decide),
   (C9_set_data_length ⟨some [7, 7, 7], 3, 1, 1, true⟩ 9).1 (by decide)⟩

/-- C5: the unsigned varint `GetValue` fails with `OutOfBounds` for any
offset at or beyond capacity before touching storage, but the signed
overload's guard is `offset > buffer_size`, so at `offset = capacity`
(here capacity 4) it inspects the sign bit of the octet one past the end
of the storage — an out-of-range access — instead of failing with
`OutOfBounds` first. -/
theorem C5_signed_get_bounds_gap :
    GetValueVarUint (mkSized 4) 4 = .error .outOfBounds ∧
    GetValueVarUint (mkSized 4) 9 = .error .outOfBounds ∧
    GetValueVarInt (mkSized 4) 5 = .error .outOfBounds ∧
    GetValueVarInt (mkSized 4) 4 = .error .memoryViolation := by
  decide

/-- C6: the octet count computed and returned by the unsigned varint
encoder equals `FindMSb(u)/7 + 1` with `FindMSb 0 = 0`; concretely
0x7F needs 1 octet, 0x80 needs 2, 0x3FFF needs 2, 0x4000 needs 3, and
every value from `2^63` up to `2^64 - 1` needs 10. -/
theorem C6_exact_length_law :
    (∀ u : Nat, VarUintSize u = FindMSb u / 7 + 1) ∧
    VarUintSize 0x7F = 1 ∧ VarUintSize 0x80 = 2 ∧
    VarUintSize 0x3FFF = 2 ∧ VarUintSize 0x4000 = 3 ∧
    (∀ u : Nat, 2 ^ 63 ≤ u → u < 2 ^ 64 → VarUintSize u = 10) ∧
    (∀ (b b' : DataBuffer) (u offset n : Nat),
      SetValueVarUint b u offset = (.ok n, b') → n = VarUintSize u) := by
  refine ⟨fun _ => rfl, by decide, by decide, by decide, by decide,
          fun u h1 h2 => ?_, fun b b' u offset n h => ?_⟩
  · rw [VarUintSize, FindMSb_range u h1 h2]
  · simp only [SetValueVarUint] at h
    by_cases hb : offset + VarUintSize u > b.buffer_size
    · rw [if_pos hb] at h
      simp at h
    · rw [if_neg hb] at h
      have := congrArg Prod.fst h
      simp only at this
      exact (Except.ok.inj this).symm

/-- C2: for every 64-bit unsigned integer `u` and every offset such that
the buffer's capacity is at least `offset + VarUintSize u`, the varint
`SetValue(u, offset)` followed by the varint `GetValue` at the same
offset yields `u` again, and both calls return the same octet count. -/
theorem C2_varuint_roundtrip (b : DataBuffer) (l : List Nat) (u offset : Nat)
    (hl : b.storage = some l) (hlen : l.length = b.buffer_size)
    (hu : u < 2 ^ 64) (hcap : offset + VarUintSize u ≤ b.buffer_size) :
    ∃ b' : DataBuffer,
      SetValueVarUint b u offset = (.ok (VarUintSize u), b') ∧
      GetValueVarUint b' offset = .ok (u, VarUintSize u) := by
  have hbo : b.octets = l := by rw [octets, hl]; rfl
  refine ⟨b.writeOctets offset (usept u (VarUintSize u)), ?_, ?_⟩
  · simp only [SetValueVarUint]
    rw [if_neg (by omega)]
  · have hsize : (b.writeOctets offset (usept u (VarUintSize u))).buffer_size
        = b.buffer_size := rfl
    have hbytes : (b.writeOctets offset (usept u (VarUintSize u))).bytesAt
        offset (usept u (VarUintSize u)) := by
      refine bytesAt_writeOctets b offset _ ?_ (usept_mem_lt u _)
      rw [hbo, usept_length]
      omega
    have h1 : 1 ≤ VarUintSize u := Nat.le_add_left 1 _
    have h10 : VarUintSize u ≤ 10 := VarUintSize_le_ten u hu
    have hgo := varGo_consume (b.writeOctets offset (usept u (VarUintSize u)))
      offset u (VarUintSize u) 0 0 10 h1 h10
      (by simpa using hbytes) (by rw [hsize]; omega)
    have hval : (0 * 128 ^ VarUintSize u + u % 128 ^ VarUintSize u) % 2 ^ 64
        = u := by
      rw [Nat.zero_mul, Nat.zero_add,
          Nat.mod_eq_of_lt (lt_pow_seven_VarUintSize u hu),
          Nat.mod_eq_of_lt hu]
    rw [GetValueVarUint, hgo, hval]
    simp only [Nat.zero_add]
    by_cases hn : VarUintSize u = 10
    · have hu63 : 2 ^ 63 ≤ u := VarUintSize_eq_ten_imp u hu hn
      have hfirst : (b.writeOctets offset (usept u (VarUintSize u))).octetAt
          offset = 0x81 := by
        have hb0 := hbytes 0 (by rw [usept_length]; omega)
        rw [Nat.add_zero] at hb0
        rw [hb0, hn]
        have hd : u / 128 ^ 9 = 1 := by
          have he : (128 : Nat) ^ 9 = 2 ^ 63 := by norm_num
          rw [he]
          omega
        have hus : usept u 10 = (u / 128 ^ 9 % 128 + 128) :: usept u 9 := rfl
        rw [hus, List.getD_cons_zero, hd]
      rw [if_neg (by simp [hfirst])]
    · rw [if_neg (by simp [hn])]

theorem C2_varuint_roundtrip_witness :
    ∃ b' : DataBuffer,
      SetValueVarUint (mkSized 8) 0x200000 2 = (.ok (VarUintSize 0x200000), b') ∧
      GetValueVarUint b' 2 = .ok (0x200000, VarUintSize 0x200000) :=
  C2_varuint_roundtrip (mkSized 8) (List.replicate 8 0) 0x200000 2
    rfl (by decide) (by norm_num) (by decide)

/-- C10: the unsigned varint decoder accepts non-minimal encodings
shorter than the 10-octet maximum: for every value `u` and every padded
in-capacity encoding of length `L` with `2 ≤ L ≤ 9`, formed by prefixing
the minimal encoding of `u` with zero-payload continuation octets
(leading 0x80 octets), decode succeeds, returns `L`, and yields `u` —
the canonical-form rejection applies only when exactly 10 octets are
consumed. -/
theorem C10_padded_encodings (b : DataBuffer) (u L offset : Nat)
    (hu : u < 2 ^ 64) (hL2 : 2 ≤ L) (hL9 : L ≤ 9)
    (hmin : VarUintSize u ≤ L)
    (hbytes : b.bytesAt offset
      (List.replicate (L - VarUintSize u) 0x80 ++ usept u (VarUintSize u)))
    (hcap : offset + L ≤ b.buffer_size) :
    GetValueVarUint b offset = .ok (u, L) := by
  obtain ⟨hpad, husept⟩ := (bytesAt_append b _ offset _).mp hbytes
  rw [List.length_replicate] at husept
  have h1 : 1 ≤ VarUintSize u := Nat.le_add_left 1 _
  have hlen : (List.replicate (L - VarUintSize u) 0x80
      ++ usept u (VarUintSize u)).length = L := by
    rw [List.length_append, List.length_replicate, usept_length]
    omega
  have hpad' := varGo_pad b offset (L - VarUintSize u) 0 10 (by omega)
    (by simpa using hpad) (by omega)
  have hcons := varGo_consume b offset u (VarUintSize u) 0 (L - VarUintSize u)
    (10 - (L - VarUintSize u)) h1 (by omega) husept (by omega)
  have hval : (0 * 128 ^ VarUintSize u + u % 128 ^ VarUintSize u) % 2 ^ 64
      = u := by
    rw [Nat.zero_mul, Nat.zero_add,
        Nat.mod_eq_of_lt (lt_pow_seven_VarUintSize u hu),
        Nat.mod_eq_of_lt hu]
  have htot : L - VarUintSize u + VarUintSize u = L := by omega
  have hfin : varGo b offset 0 0 10 = .ok (u, L) := by
    rw [hpad']
    simp only [Nat.zero_add]
    rw [hcons, hval, htot]
  rw [GetValueVarUint, hfin]
  show (if L = 10 ∧ b.octetAt offset ≠ 0x81 then
          Except.error DBError.malformedVarint
        else Except.ok (u, L)) = Except.ok (u, L)
  rw [if_neg (by rintro ⟨h10, -⟩; omega)]

theorem C10_padded_encodings_witness :
    GetValueVarUint
      ⟨some [0x80, 0x80, 0x81, 0x80, 0x80, 0x00], 6, 6, 0, true⟩ 0
      = .ok (0x200000, 6) :=
  C10_padded_encodings
    ⟨some [0x80, 0x80, 0x81, 0x80, 0x80, 0x00], 6, 6, 0, true⟩
    0x200000 6 0 (by norm_num) (by norm_num) (by norm_num) (by decide)
    (by decide) (by decide)

/-- C4: on an in-capacity octet stream (all ten potentially consumed
octets within capacity), each varint `GetValue` overload fails with
`MalformedVarint` exactly when the continuation-bit stream does not
terminate within 10 octets, or exactly 10 octets are consumed and the
leading octet is non-canonical (not 0x81 for unsigned; neither 0x80 nor
0xFF for signed); any failure is `MalformedVarint` and in every other
case decode succeeds. -/
theorem C4_malformed_conditions (b : DataBuffer) (offset : Nat)
    (hcap : offset + 10 ≤ b.buffer_size) :
    (GetValueVarUint b offset = .error .malformedVarint ↔
      (∀ j < 10, 128 ≤ b.octetAt (offset + j)) ∨
      ((∀ j < 9, 128 ≤ b.octetAt (offset + j)) ∧
        b.octetAt (offset + 9) < 128 ∧ b.octetAt offset ≠ 0x81)) ∧
    (∀ e, GetValueVarUint b offset = .error e → e = .malformedVarint) ∧
    (GetValueVarInt b offset = .error .malformedVarint ↔
      (∀ j < 10, 128 ≤ b.octetAt (offset + j)) ∨
      ((∀ j < 9, 128 ≤ b.octetAt (offset + j)) ∧
        b.octetAt (offset + 9) < 128 ∧
        b.octetAt offset ≠ 0x80 ∧ b.octetAt offset ≠ 0xFF)) ∧
    (∀ e, GetValueVarInt b offset = .error e → e = .malformedVarint) := by
  have hU := varGo_cases b offset 10 0 0 (by omega)
  have hlt : offset < b.buffer_size := by omega
  have hS := varGo_cases b offset 10 0
    (if b.octetAt offset / 64 % 2 = 1 then 2 ^ 64 - 1 else 0) (by omega)
  simp only [Nat.zero_add, Nat.add_zero] at hU hS
  have hUerr : varGo b offset 0 0 10 = .error .malformedVarint →
      GetValueVarUint b offset = .error .malformedVarint := by
    intro hr
    rw [GetValueVarUint, hr]
  have hUok : ∀ v n, varGo b offset 0 0 10 = .ok (v, n) →
      GetValueVarUint b offset =
        if n = 10 ∧ b.octetAt offset ≠ 0x81 then .error .malformedVarint
        else .ok (v, n) := by
    intro v n hr
    rw [GetValueVarUint, hr]
  have hSerr : varGo b offset
      (if b.octetAt offset / 64 % 2 = 1 then 2 ^ 64 - 1 else 0) 0 10
        = .error .malformedVarint →
      GetValueVarInt b offset = .error .malformedVarint := by
    intro hr
    simp only [GetValueVarInt]
    rw [if_neg (by omega), if_pos hlt, hr]
  have hSok : ∀ v n, varGo b offset
      (if b.octetAt offset / 64 % 2 = 1 then 2 ^ 64 - 1 else 0) 0 10
        = .ok (v, n) →
      GetValueVarInt b offset =
        if n = 10 ∧ b.octetAt offset ≠ 0x80 ∧ b.octetAt offset ≠ 0xFF then
          .error .malformedVarint
        else .ok (toSigned v, n) := by
    intro v n hr
    simp only [GetValueVarInt]
    rw [if_neg (by omega), if_pos hlt, hr]
  refine ⟨?_, ?_, ?_, ?_⟩
  · rcases hU with ⟨hall, heq⟩ | ⟨j, hj, hall, hstop, v, heq⟩
    · rw [hUerr heq]
      simp only [eq_self_iff_true, true_iff]
      exact Or.inl hall
    · rw [hUok _ _ heq]
      by_cases hj9 : j = 9
      · subst hj9
        by_cases hc : b.octetAt offset = 0x81
        · rw [if_neg (by simp [hc])]
          constructor
          · intro h; simp at h
          · rintro (h | h)
            · exact absurd (h 9 (by omega)) (by omega)
            · exact absurd hc h.2.2
        · rw [if_pos ⟨by omega, hc⟩]
          simp only [true_iff]
          exact Or.inr ⟨fun i hi => hall i (by omega), hstop, hc⟩
      · rw [if_neg (by rintro ⟨h1, -⟩; omega)]
        constructor
        · intro h; simp at h
        · rintro (h | h)
          · exact absurd (h j (by omega)) (by omega)
          · exact absurd (h.1 j (by omega)) (by omega)
  · intro e he
    rcases hU with ⟨hall, heq⟩ | ⟨j, hj, hall, hstop, v, heq⟩
    · rw [hUerr heq] at he
      exact (Except.error.inj he).symm
    · rw [hUok _ _ heq] at he
      by_cases hcond : j + 1 = 10 ∧ b.octetAt offset ≠ 0x81
      · rw [if_pos hcond] at he
        exact (Except.error.inj he).symm
      · rw [if_neg hcond] at he
        simp at he
  · rcases hS with ⟨hall, heq⟩ | ⟨j, hj, hall, hstop, v, heq⟩
    · rw [hSerr heq]
      simp only [eq_self_iff_true, true_iff]
      exact Or.inl hall
    · rw [hSok _ _ heq]
      by_cases hj9 : j = 9
      · subst hj9
        by_cases hc : b.octetAt offset ≠ 0x80 ∧ b.octetAt offset ≠ 0xFF
        · rw [if_pos ⟨by omega, hc.1, hc.2⟩]
          simp only [true_iff]
          exact Or.inr ⟨fun i hi => hall i (by omega), hstop, hc.1, hc.2⟩
        · rw [if_neg (by rintro ⟨-, h1, h2⟩; exact hc ⟨h1, h2⟩)]
          constructor
          · intro h; simp at h
          · rintro (h | h)
            · exact absurd (h 9 (by omega)) (by omega)
            · exact absurd ⟨h.2.2.1, h.2.2.2⟩ hc
      · rw [if_neg (by rintro ⟨h1, -⟩; omega)]
        constructor
        · intro h; simp at h
        · rintro (h | h)
          · exact absurd (h j (by omega)) (by omega)
          · exact absurd (h.1 j (by omega)) (by omega)
  · intro e he
    rcases hS with ⟨hall, heq⟩ | ⟨j, hj, hall, hstop, v, heq⟩
    · rw [hSerr heq] at he
      exact (Except.error.inj he).symm
    · rw [hSok _ _ heq] at he
      by_cases hcond : j + 1 = 10 ∧ b.octetAt offset ≠ 0x80 ∧
          b.octetAt offset ≠ 0xFF
      · rw [if_pos hcond] at he
        exact (Except.error.inj he).symm
      · rw [if_neg hcond] at he
        simp at he

/-- C3: for every 64-bit signed integer `i` and every offset such that
the buffer's capacity is at least `offset + VarIntSize i`, the varint
`SetValue(i, offset)` followed by the signed varint `GetValue` at the
same offset yields `i` again, and both calls return the same octet
count. -/
theorem C3_varint_signed_roundtrip (b : DataBuffer) (l : List Nat) (i : Int)
    (offset : Nat) (hl : b.storage = some l) (hlen : l.length = b.buffer_size)
    (hlo : -(2 : Int) ^ 63 ≤ i) (hhi : i < 2 ^ 63)
    (hcap : offset + VarIntSize i ≤ b.buffer_size) :
    ∃ b' : DataBuffer,
      SetValueVarInt b i offset = (.ok (VarIntSize i), b') ∧
      GetValueVarInt b' offset = .ok (i, VarIntSize i) := by
  refine ⟨b.writeOctets offset (ssept i (VarIntSize i)), ?_, ?_⟩
  · simp only [SetValueVarInt]
    rw [if_neg (by omega)]
  · by_cases h0 : 0 ≤ i
    · rw [ssept_eq_usept_nonneg i h0]
      exact decode_written_nonneg b l i offset hl hlen h0 hhi hcap
    · rw [ssept_eq_usept_neg i (by omega) hlo _
        (VarIntSize_le_ten_int i hlo hhi)]
      exact decode_written_neg b l i offset hl hlen (by omega) hlo hcap

theorem C3_varint_signed_roundtrip_witness :
    ∃ b' : DataBuffer,
      SetValueVarInt (mkSized 8) (-16385) 1 = (.ok (VarIntSize (-16385)), b') ∧
      GetValueVarInt b' 1 = .ok (-16385, VarIntSize (-16385)) :=
  C3_varint_signed_roundtrip (mkSized 8) (List.replicate 8 0) (-16385) 1
    rfl (by decide) (by norm_num) (by norm_num) (by decide)

theorem C4_malformed_conditions_witness :
    GetValueVarUint ⟨some (List.replicate 10 0xFF), 10, 10, 0, true⟩ 0
      = .error .malformedVarint ∧
    GetValueVarInt ⟨some (List.replicate 10 0xFF), 10, 10, 0, true⟩ 0
      = .error .malformedVarint :=
  ⟨(C4_malformed_conditions ⟨some (List.replicate 10 0xFF), 10, 10, 0, true⟩ 0
      (by decide)).1.mpr (Or.inl (by decide)),
   (C4_malformed_conditions ⟨some (List.replicate 10 0xFF), 10, 10, 0, true⟩ 0
      (by decide)).2.2.1.mpr (Or.inl (by decide))⟩

/-- C7: a varint `ReadValue` (unsigned or signed) whose encoding starting
at `read_position` decodes to `len` octets extending beyond `data_length`
fails with `OutOfBounds` — even when additional allocated capacity exists
past `data_length` — and leaves the buffer state (in particular
`read_position`) unchanged. -/
theorem C7_read_restricted_to_data_length (b : DataBuffer) :
    (∀ v len, GetValueVarUint b b.read_position = .ok (v, len) →
      b.data_length < b.read_position + len →
      ReadValueVarUint b = (.error .outOfBounds, b)) ∧
    (∀ v len, GetValueVarInt b b.read_position = .ok (v, len) →
      b.data_length < b.read_position + len →
      ReadValueVarInt b = (.error .outOfBounds, b)) := by
  constructor
  · intro v len hget hlen
    rw [ReadValueVarUint, hget]
    show (if b.read_position + len > b.data_length then
            ((.error .outOfBounds : Except DBError (Nat × Nat)), b)
          else (.ok (v, len), { b with read_position := b.read_position + len }))
        = (.error .outOfBounds, b)
    rw [if_pos (by omega)]
  · intro v len hget hlen
    rw [ReadValueVarInt, hget]
    show (if b.read_position + len > b.data_length then
            ((.error .outOfBounds : Except DBError (Int × Nat)), b)
          else (.ok (v, len), { b with read_position := b.read_position + len }))
        = (.error .outOfBounds, b)
    rw [if_pos (by omega)]

theorem C7_read_restricted_to_data_length_witness :
    ReadValueVarUint ⟨some [0x81, 0x01, 0x00, 0x00], 4, 1, 0, true⟩
      = (.error .outOfBounds, ⟨some [0x81, 0x01, 0x00, 0x00], 4, 1, 0, true⟩) ∧
    ReadValueVarInt ⟨some [0x81, 0x01, 0x00, 0x00], 4, 1, 0, true⟩
      = (.error .outOfBounds, ⟨some [0x81, 0x01, 0x00, 0x00], 4, 1, 0, true⟩) :=
  ⟨(C7_read_restricted_to_data_length
      ⟨some [0x81, 0x01, 0x00, 0x00], 4, 1, 0, true⟩).1 129 2
      (by decide) (by decide),
   (C7_read_restricted_to_data_length
      ⟨some [0x81, 0x01, 0x00, 0x00], 4, 1, 0, true⟩).2 129 2
      (by decide) (by decide)⟩

theorem C6_exact_length_law_witness :
    VarUintSize (2 ^ 63) = 10 ∧ (4 : Nat) = VarUintSize 0x200000 :=
  ⟨C6_exact_length_law.2.2.2.2.2.1 (2 ^ 63) (Nat.le_refl _) (by norm_num),
   C6_exact_length_law.2.2.2.2.2.2 (mkSized 4)
     (SetValueVarUint (mkSized 4) 0x200000 0).2 0x200000 0 4 (by decide)⟩

end Claims

end NetUtil
